import Mathlib

/-!
The shared frame buffer of softcam (`src/softcamcore/FrameBuffer.cpp`).

A shallow embedding of `softcam::FrameBuffer`.

* The mapped shared-memory region is a byte memory (`Mem`, addresses counted
  from the base of the mapping) together with its mapped size.  The header
  is *not* a separate record: as in the source, `Header` is an overlay of
  the first 24 bytes of the region, and every field access decodes or
  encodes those bytes (little-endian, the layout of the only target of the
  source, x86/x64 Windows).
* `float` values are carried as their IEEE-754 binary32 bit pattern; the only
  floating-point operation of the source is the comparison `x < 0.0f`.
* `std::lock_guard<NamedMutex>` makes every member function atomic with
  respect to the region; the embedding is therefore sequential, one
  function application per call.
* Buffers handed in by the caller (`image_bits`) live in process-private
  memory and are separate `Mem` values, disjoint from the region.
* Pointer and `int` arithmetic is carried out in `Nat`; the explicitly
  unsigned 32-bit computations (`calcMemorySize`, `image_size` in `open`)
  and the 64-bit counter increment are reduced modulo `2^32` / `2^64`.
  For dimensions accepted by `checkDimensions` the `int` products of the
  source (`3 * w * h`, `3 * w * (h - 1 - y)`) stay below `2^31`, so the two
  arithmetics agree on every region that passes the checks of `open`.
-/

namespace softcam

/-! ## Bytes and memories -/

/-- One `uint8_t`. -/
abbrev Byte := Fin 256

/-- A byte-addressed memory; address `0` is the base of the mapping or buffer. -/
abbrev Mem := Nat → Byte

/-- Truncation of an integer value to `uint8_t`. -/
def byteOf (v : Nat) : Byte := ⟨v % 256, Nat.mod_lt v (by decide)⟩

/-- Load of a `uint8_t`. -/
def rd8 (m : Mem) (a : Nat) : Nat := (m a).val

/-- Load of a little-endian `uint16_t`. -/
def rd16 (m : Mem) (a : Nat) : Nat := rd8 m a + 256 * rd8 m (a + 1)

/-- Load of a little-endian `uint32_t`. -/
def rd32 (m : Mem) (a : Nat) : Nat := rd16 m a + 65536 * rd16 m (a + 2)

/-- Load of a little-endian `uint64_t`. -/
def rd64 (m : Mem) (a : Nat) : Nat := rd32 m a + 4294967296 * rd32 m (a + 4)

/-- Store of a `uint8_t` (the value is truncated to 8 bits). -/
def wr8 (m : Mem) (a v : Nat) : Mem := fun x => if x = a then byteOf v else m x

/-- Store of a little-endian `uint16_t`. -/
def wr16 (m : Mem) (a v : Nat) : Mem := wr8 (wr8 m a v) (a + 1) (v / 256)

/-- Store of a little-endian `uint32_t`. -/
def wr32 (m : Mem) (a v : Nat) : Mem := wr16 (wr16 m a v) (a + 2) (v / 65536)

/-- Store of a little-endian `uint64_t`. -/
def wr64 (m : Mem) (a v : Nat) : Mem := wr32 (wr32 m a v) (a + 4) (v / 4294967296)

/-- The call `std::memcpy(dst + d, src + s, n)` for two disjoint memories:
byte `k` of the source range is stored at byte `k` of the destination range,
for `k = 0, …, n-1`. -/
def memcpy (dst : Mem) (d : Nat) (src : Mem) (s : Nat) : Nat → Mem
  | 0 => dst
  | n + 1 => fun x => if x = d + n then src (s + n) else memcpy dst d src s n x

/-! ## The shared region and the header overlay -/

/-- A mapped view of the shared-memory object: what `SharedMemory::get()` points
to and what `SharedMemory::size()` returns. -/
structure Region where
  /-- Mapped size in bytes. -/
  size : Nat
  /-- Contents; the addresses below `size` belong to the mapping. -/
  mem : Mem

/-- The value of `sizeof(Header)`: 4 + 2 + 2 + 4 + 1 + 1 + 2 + 8 bytes. -/
def sizeofHeader : Nat := 24

namespace Header

/-- Field `uint32_t m_image_offset`, bytes 0..3. -/
def m_image_offset (m : Mem) : Nat := rd32 m 0
/-- Field `uint16_t m_width`, bytes 4..5. -/
def m_width (m : Mem) : Nat := rd16 m 4
/-- Field `uint16_t m_height`, bytes 6..7. -/
def m_height (m : Mem) : Nat := rd16 m 6
/-- Field `float m_framerate`, bytes 8..11, as its bit pattern. -/
def m_framerate (m : Mem) : Nat := rd32 m 8
/-- Field `uint8_t m_is_active`, byte 12. -/
def m_is_active (m : Mem) : Nat := rd8 m 12
/-- Field `uint8_t m_connected`, byte 13. -/
def m_connected (m : Mem) : Nat := rd8 m 13
/-- Field `uint16_t m_unused_field`, bytes 14..15. -/
def m_unused_field (m : Mem) : Nat := rd16 m 14
/-- Field `uint64_t m_frame_counter`, bytes 16..23. -/
def m_frame_counter (m : Mem) : Nat := rd64 m 16

/-- Assignment `frame->m_image_offset = v`. -/
def set_image_offset (m : Mem) (v : Nat) : Mem := wr32 m 0 v
/-- Assignment `frame->m_width = v`. -/
def set_width (m : Mem) (v : Nat) : Mem := wr16 m 4 v
/-- Assignment `frame->m_height = v`. -/
def set_height (m : Mem) (v : Nat) : Mem := wr16 m 6 v
/-- Assignment `frame->m_framerate = v` (bit pattern). -/
def set_framerate (m : Mem) (v : Nat) : Mem := wr32 m 8 v
/-- Assignment `frame->m_is_active = v`. -/
def set_is_active (m : Mem) (v : Nat) : Mem := wr8 m 12 v
/-- Assignment `frame->m_connected = v`. -/
def set_connected (m : Mem) (v : Nat) : Mem := wr8 m 13 v
/-- Assignment `frame->m_frame_counter = v`. -/
def set_frame_counter (m : Mem) (v : Nat) : Mem := wr64 m 16 v

/-- The function `Header::imageData()`: the address `this + m_image_offset`,
relative to the base of the mapping. -/
def imageData (m : Mem) : Nat := m_image_offset m

end Header

/-! ## IEEE-754 binary32 comparisons with zero -/

/-- The test `x < 0.0f` on the bit pattern of a `float`: the sign bit is set
and the value is neither `-0.0` (`0x80000000`) nor a NaN (above `-inf`,
`0xFF800000`). -/
def f32_lt_zero (bits : Nat) : Bool := decide (0x80000000 < bits ∧ bits ≤ 0xFF800000)

/-- The test `x >= 0.0f` on the bit pattern of a `float`: `+0.0` up to `+inf`
(`0x7F800000`), or `-0.0`. -/
def f32_ge_zero (bits : Nat) : Bool := decide (bits ≤ 0x7F800000 ∨ bits = 0x80000000)

/-! ## The operating-system primitive `SharedMemory` -/

/-- A `SharedMemory` handle: `none` is the empty (falsy) handle. -/
abbrev SharedMemory := Option Region

/-- Modelled from the spec: `SharedMemory::create(name, size)` (declared in
`softcamcore/Misc.h`, implemented outside `FrameBuffer.cpp`).  `existing` is the object
currently registered under the name, `alloc` is the answer of the operating
system to a request for a fresh mapping of a given size (its mapped size and
initial contents, or `none` when it refuses).  Creation fails if the size is
zero or if an object with that name already exists; on success the mapped
size is at least the requested size. -/
def SharedMemory.create (existing : Option Region) (alloc : Nat → Option Region)
    (size : Nat) : SharedMemory :=
  if size = 0 then none
  else
    match existing with
    | some _ => none
    | none =>
      match alloc size with
      | none => none
      | some r => if size ≤ r.size then some r else none

/-- Modelled from the spec: `SharedMemory::open(name)` (declared in
`softcamcore/Misc.h`, implemented outside `FrameBuffer.cpp`).  It fails if no object with
that name exists and otherwise maps the existing object at its actual size. -/
def SharedMemory.open (existing : Option Region) : SharedMemory := existing

/-! ## `FrameBuffer` -/

/-- The class `FrameBuffer`: its `SharedMemory m_shmem` member.  (`m_mutex` only
serialises the calls.)  A live channel carries the current contents of the
mapped region. -/
structure FrameBuffer where
  /-- The mapping held by this instance, `none` for a null channel. -/
  m_shmem : SharedMemory

namespace FrameBuffer

/-- The function `FrameBuffer::checkDimensions(int width, int height)`;
`Int.tmod` is the remainder of C++ (`%`, truncating). -/
def checkDimensions (width height : Int) : Bool :=
  if width < 1 ∨ width > 16384 ∨ width.tmod 4 ≠ 0 ∨
     height < 1 ∨ height > 16384 ∨ height.tmod 4 ≠ 0 then
    false
  else
    true

/-- The function `FrameBuffer::calcMemorySize(uint16_t width, uint16_t height)`,
in `uint32_t` arithmetic. -/
def calcMemorySize (width height : Nat) : Nat :=
  let header_size := sizeofHeader % 2 ^ 32
  let image_size := (width % 2 ^ 32 * height % 2 ^ 32) * 3 % 2 ^ 32
  let shmem_size := (header_size + image_size) % 2 ^ 32
  shmem_size

/-- The cast `(uint16_t)x` of an `int`. -/
def toUInt16 (x : Int) : Nat := (x % 65536).toNat

/-- The header assignments of `FrameBuffer::create`, in source order. -/
def initHeader (m : Mem) (width height : Int) (framerate : Nat) : Mem :=
  let m := Header.set_image_offset m sizeofHeader
  let m := Header.set_width m (toUInt16 width)
  let m := Header.set_height m (toUInt16 height)
  let m := Header.set_framerate m framerate
  let m := Header.set_is_active m 1
  let m := Header.set_connected m 0
  let m := Header.set_frame_counter m 0
  m

/-- The function `FrameBuffer::create(width, height, framerate)`.  Returns the
channel and the object registered under the shared-memory name after the
call. -/
def create (existing : Option Region) (alloc : Nat → Option Region)
    (width height : Int) (framerate : Nat) : FrameBuffer × Option Region :=
  if !checkDimensions width height then
    (⟨none⟩, existing)
  else if f32_lt_zero framerate then
    (⟨none⟩, existing)
  else
    let shmem_size := calcMemorySize (toUInt16 width) (toUInt16 height)
    match SharedMemory.create existing alloc shmem_size with
    | none => (⟨none⟩, existing)
    | some r =>
      let r' : Region := { r with mem := initHeader r.mem width height framerate }
      (⟨some r'⟩, some r')

/-- The function `FrameBuffer::open()`.  Returns the channel and the object
registered under the shared-memory name after the call. -/
def «open» (existing : Option Region) : FrameBuffer × Option Region :=
  match SharedMemory.open existing with
  | none => (⟨none⟩, existing)
  | some r =>
    let size := r.size
    if size < sizeofHeader then
      (⟨none⟩, existing)
    else if !checkDimensions (Header.m_width r.mem) (Header.m_height r.mem) ||
        f32_lt_zero (Header.m_framerate r.mem) then
      (⟨none⟩, existing)
    else
      let image_size :=
        ((Header.m_width r.mem % 2 ^ 32) * (Header.m_height r.mem % 2 ^ 32) % 2 ^ 32) * 3 % 2 ^ 32
      if size ≤ Header.m_image_offset r.mem ||
          size - Header.m_image_offset r.mem < image_size then
        (⟨none⟩, existing)
      else
        let r' : Region := { r with mem := Header.set_connected r.mem 1 }
        (⟨some r'⟩, some r')

/-- The function `FrameBuffer::width()`. -/
def width (fb : FrameBuffer) : Int :=
  match fb.m_shmem with
  | some r => (Header.m_width r.mem : Int)
  | none => 0

/-- The function `FrameBuffer::height()`. -/
def height (fb : FrameBuffer) : Int :=
  match fb.m_shmem with
  | some r => (Header.m_height r.mem : Int)
  | none => 0

/-- The function `FrameBuffer::framerate()`; the result is a bit pattern and
`0` is `0.0f`. -/
def framerate (fb : FrameBuffer) : Nat :=
  match fb.m_shmem with
  | some r => Header.m_framerate r.mem
  | none => 0

/-- The function `FrameBuffer::frameCounter()`. -/
def frameCounter (fb : FrameBuffer) : Nat :=
  match fb.m_shmem with
  | some r => Header.m_frame_counter r.mem
  | none => 0

/-- The function `FrameBuffer::active()`; the `uint8_t` is converted to `bool`. -/
def active (fb : FrameBuffer) : Bool :=
  match fb.m_shmem with
  | some r => decide (Header.m_is_active r.mem ≠ 0)
  | none => false

/-- The function `FrameBuffer::connected()`; the `uint8_t` is converted to `bool`. -/
def connected (fb : FrameBuffer) : Bool :=
  match fb.m_shmem with
  | some r => decide (Header.m_connected r.mem ≠ 0)
  | none => false

/-- The function `FrameBuffer::deactivate()`. -/
def deactivate (fb : FrameBuffer) : FrameBuffer :=
  match fb.m_shmem with
  | none => fb
  | some r => ⟨some { r with mem := Header.set_is_active r.mem 0 }⟩

/-- The function `FrameBuffer::write(image_bits)`: the `memcpy` into the pixel
area, then `m_frame_counter += 1` on the header as it is after the copy. -/
def write (fb : FrameBuffer) (image_bits : Mem) : FrameBuffer :=
  match fb.m_shmem with
  | none => fb
  | some r =>
    let frame := r.mem
    let copied := memcpy frame (Header.imageData frame) image_bits 0
      (3 * Header.m_width frame * Header.m_height frame)
    let counted := Header.set_frame_counter copied ((Header.m_frame_counter copied + 1) % 2 ^ 64)
    ⟨some { r with mem := counted }⟩

/-- The row padding `int gap = ((w * 3 + 3) & ~3) - w * 3` of `transferToDIB`;
`~3` is the 32-bit mask `0xFFFFFFFC`. -/
def gap (w : Nat) : Nat := ((w * 3 + 3) &&& 0xFFFFFFFC) - w * 3

/-- One iteration of the row loop of `transferToDIB` for the row index `y`; the
state is the pointer `dest` (an address in the output buffer) and the output
buffer. -/
def copyRow (image : Mem) (imageData w h : Nat) (st : Nat × Mem) (y : Nat) : Nat × Mem :=
  let src := imageData + 3 * w * (h - 1 - y)
  (st.1 + (3 * w + gap w), memcpy st.2 st.1 image src (3 * w))

/-- The loop `for (int y = 0; y < h; y++)` that copies the rows. -/
def copyRows (image : Mem) (imageData w h : Nat) (image_bits : Mem) : Nat × Mem :=
  (List.range h).foldl (copyRow image imageData w h) (0, image_bits)

/-- The body of the inner darkening loop: one pixel at `dest`, then `dest += 3`. -/
def darkenPixel (st : Nat × Mem) : Nat × Mem :=
  let dest := st.1
  let b := rd8 st.2 dest
  let g := rd8 st.2 (dest + 1)
  let r := rd8 st.2 (dest + 2)
  (dest + 3, wr8 (wr8 (wr8 st.2 dest (b / 4)) (dest + 1) (g / 4)) (dest + 2) (r / 4))

/-- The body of the outer darkening loop: `w` pixels, then `dest += gap`. -/
def darkenRow (w : Nat) (st : Nat × Mem) : Nat × Mem :=
  let st' := darkenPixel^[w] st
  (st'.1 + gap w, st'.2)

/-- The darkening pass of `transferToDIB`, starting again at `dest = image_bits`. -/
def darken (w h : Nat) (image_bits : Mem) : Mem :=
  ((darkenRow w)^[h] (0, image_bits)).2

/-- The function `FrameBuffer::transferToDIB(image_bits, out_frame_counter)`.
Returns the output buffer and the value stored in `*out_frame_counter`; the
region is only read. -/
def transferToDIB (fb : FrameBuffer) (image_bits : Mem) : Mem × Nat :=
  match fb.m_shmem with
  | none => (image_bits, 0)
  | some r =>
    let frame := r.mem
    let w := Header.m_width frame
    let h := Header.m_height frame
    let copied := (copyRows frame (Header.imageData frame) w h image_bits).2
    let out_frame_counter := Header.m_frame_counter frame
    if Header.m_is_active frame = 0 then
      (darken w h copied, out_frame_counter)
    else
      (copied, out_frame_counter)

/-- The function `FrameBuffer::release()`. -/
def release (_fb : FrameBuffer) : FrameBuffer := ⟨none⟩

end FrameBuffer

end softcam

namespace softcam

/-! ## Several channels on one region -/

/-- A call made by one of the `FrameBuffer` instances that share a region.  The
instances are numbered in the order of their construction; instance 0 is the one
returned by `create`. -/
inductive Op where
  /-- A further instance is constructed by `FrameBuffer::open()`. -/
  | «open» : Op
  /-- One of `width()`, `height()`, `framerate()`, `frameCounter()`, `active()`,
  `connected()` on instance `i`. -/
  | query (i : Nat) : Op
  /-- The call `write(image_bits)` on instance `i`. -/
  | write (i : Nat) (image_bits : Mem) : Op
  /-- The call `deactivate()` on instance `i`. -/
  | deactivate (i : Nat) : Op
  /-- The call `transferToDIB(image_bits, &counter)` on instance `i`. -/
  | transferToDIB (i : Nat) (image_bits : Mem) : Op
  /-- The call `waitForNewFrame(frame_counter, time_out)` on instance `i`; it
  touches the region only through `active()` and `frameCounter()`. -/
  | waitForNewFrame (i : Nat) (frame_counter : Nat) (time_out : Nat) : Op
  /-- The call `release()` on instance `i`. -/
  | release (i : Nat) : Op

/-- One region and the instances attached to it. -/
structure Sys where
  /-- The contents of the shared region. -/
  shared : Region
  /-- For every instance constructed so far, whether its `m_shmem` is non-empty. -/
  live : List Bool

namespace Sys

/-- Instance `i` as a `FrameBuffer`: a live instance sees the shared region. -/
def view (s : Sys) (i : Nat) : FrameBuffer :=
  if s.live.getD i false = true then ⟨some s.shared⟩ else ⟨none⟩

/-- The object registered under the shared-memory name: it exists as long as some
instance holds a mapping of it. -/
def named (s : Sys) : Option Region :=
  if s.live.any id = true then some s.shared else none

/-- The effect of one call. -/
def step (s : Sys) : Op → Sys
  | Op.open =>
    let res := FrameBuffer.open s.named
    { shared := res.2.getD s.shared, live := s.live ++ [res.1.m_shmem.isSome] }
  | Op.query _ => s
  | Op.write i image_bits =>
    { s with shared := ((s.view i).write image_bits).m_shmem.getD s.shared }
  | Op.deactivate i =>
    { s with shared := ((s.view i).deactivate).m_shmem.getD s.shared }
  | Op.transferToDIB _ _ => s
  | Op.waitForNewFrame _ _ _ => s
  | Op.release i => { s with live := s.live.set i false }

/-- The effect of a finite sequence of calls. -/
def run : Sys → List Op → Sys
  | s, [] => s
  | s, op :: ops => run (s.step op) ops

/-- Whether the call is a `write` on an instance that holds a region. -/
def isLiveWrite (s : Sys) : Op → Bool
  | Op.write i _ => s.live.getD i false
  | _ => false

/-- The number of `write` calls of the sequence that were made on an instance
holding a region at the time of the call. -/
def writesDone : Sys → List Op → Nat
  | _, [] => 0
  | s, op :: ops => (if s.isLiveWrite op = true then 1 else 0) + writesDone (s.step op) ops

/-- The state right after a successful `create`: the initialised region and the
producer instance. -/
def init (r : Region) : Sys := ⟨r, [true]⟩

end Sys

/-! ## Waiting for a frame: `waitForNewFrame` -/

/-- The value of a `float` that is only compared, never stored (`time_out` and the
readings of the timer): NaN, an infinity, or the rational number it denotes.  The
comparisons of IEEE-754 are the comparisons of these values, and false as soon as
one side is NaN. -/
inductive F32 where
  /-- Not a number. -/
  | nan : F32
  /-- Minus infinity. -/
  | negInf : F32
  /-- A finite value, in seconds where it is a time. -/
  | num (q : ℚ) : F32
  /-- Plus infinity. -/
  | posInf : F32

/-- The comparison `a < b` of two `float` values. -/
def F32.lt : F32 → F32 → Bool
  | F32.num a, F32.num b => decide (a < b)
  | F32.negInf, F32.num _ => true
  | F32.negInf, F32.posInf => true
  | F32.num _, F32.posInf => true
  | _, _ => false

/-- The comparison `a <= b` of two `float` values. -/
def F32.le : F32 → F32 → Bool
  | F32.num a, F32.num b => decide (a ≤ b)
  | F32.negInf, F32.negInf => true
  | F32.negInf, F32.num _ => true
  | F32.negInf, F32.posInf => true
  | F32.num _, F32.posInf => true
  | F32.posInf, F32.posInf => true
  | _, _ => false

/-- What one pass of the loop of `waitForNewFrame` observes: the results of its
calls of `active()` and `frameCounter()` in the loop condition, and the reading
`timer.get()` after the sleep that follows. -/
structure Poll where
  /-- The result of `active()`. -/
  active : Bool
  /-- The result of `frameCounter()`. -/
  frameCounter : Nat
  /-- The result of `timer.get()` after the sleep. -/
  elapsed : F32

/-- The way `waitForNewFrame` returned. -/
inductive WaitExit where
  /-- The early `return` of an instance without a region. -/
  | noRegion : WaitExit
  /-- The loop condition `active() && frameCounter() <= frame_counter` was false. -/
  | condition : WaitExit
  /-- The `break` of the time-out test. -/
  | timedOut : WaitExit
  deriving DecidableEq

/-- The outcome of a call of `waitForNewFrame`: the number of calls of
`Timer::sleep` it made and the way it returned. -/
structure WaitResult where
  /-- The number of sleeps. -/
  sleeps : Nat
  /-- The exit taken. -/
  exit : WaitExit
  deriving DecidableEq

/-- The observation of an instance whose header does not change: `active()` and
`frameCounter()` of `fb`, and the given reading of the timer. -/
def Poll.ofChannel (fb : FrameBuffer) (elapsed : F32) : Poll :=
  ⟨fb.active, fb.frameCounter, elapsed⟩

namespace FrameBuffer

/-- The loop of `waitForNewFrame`, entered at its `k`-th evaluation of the
condition (after `k` sleeps), with `fuel` evaluations of the condition left;
`none` when the fuel does not suffice. -/
def waitLoop (frame_counter : Nat) (time_out : F32) (polls : Nat → Poll) :
    Nat → Nat → Option WaitResult
  | 0, _ => none
  | fuel + 1, k =>
    if ((polls k).active && decide ((polls k).frameCounter ≤ frame_counter)) = true then
      if (F32.lt (F32.num 0) time_out && F32.le time_out (polls k).elapsed) = true then
        some ⟨k + 1, WaitExit.timedOut⟩
      else
        waitLoop frame_counter time_out polls fuel (k + 1)
    else
      some ⟨k, WaitExit.condition⟩

/-- The function `FrameBuffer::waitForNewFrame(frame_counter, time_out)`; only the
header queries and the timer are involved, the region is not written. -/
def waitForNewFrame (fb : FrameBuffer) (frame_counter : Nat) (time_out : F32)
    (polls : Nat → Poll) (fuel : Nat) : Option WaitResult :=
  match fb.m_shmem with
  | none => some ⟨0, WaitExit.noRegion⟩
  | some _ => waitLoop frame_counter time_out polls fuel 0

end FrameBuffer

/-! ## Row rounding -/

/-- The rounding of the specification, `round_up(n, 4)`: `n` rounded up to a
multiple of 4. -/
def round_up4 (n : Nat) : Nat := (n + 3) / 4 * 4

/-! ## Concrete data for the instances -/

/-- An operating system whose fresh mappings are filled with the byte `0xFF`. -/
def allocDirty : Nat → Option Region := fun n => some ⟨n, fun _ => 255⟩

/-- Readings of the timer, in seconds, that grow by half a second with every
sleep: `0.5, 1.0, 1.5, …`. -/
def halfSecondValues : Nat → ℚ := fun k => ((k + 1 : Nat) : ℚ) / 2

/-- The same readings as `float` values. -/
def halfSeconds : Nat → F32 := fun k => F32.num (halfSecondValues k)

/-- What the loop observes when the producer is active and the counter stays 0. -/
def steadyPolls : Nat → Poll := fun k => ⟨true, 0, halfSeconds k⟩

/-- What the loop observes when a frame arrives between the second and the third
evaluation of the condition. -/
def arrivingPolls : Nat → Poll := fun k => ⟨true, if k < 2 then 0 else 1, halfSeconds k⟩

/-- A memory of zero bytes. -/
def zeroMem : Mem := fun _ => 0

/-- An operating system that grants every request exactly, zero-filled. -/
def allocZero : Nat → Option Region := fun n => some ⟨n, zeroMem⟩

/-- The region that `create(4, 4, 0.0f)` leaves in a zero-filled mapping of 72 bytes. -/
def demoRegion : Region := ⟨72, FrameBuffer.initHeader zeroMem 4 4 0⟩

/-- A frame whose bytes are all 200. -/
def frame200 : Mem := fun _ => 200

/-- The same region after `write(frame200)` and `deactivate()`. -/
def demoInactive : Region :=
  ((FrameBuffer.deactivate (FrameBuffer.write ⟨some demoRegion⟩ frame200)).m_shmem).getD
    demoRegion

/-- A sequence of calls: a consumer attaches, producer and consumer write once
each, the producer releases and then calls `write` once more. -/
def demoOps : List Op :=
  [Op.open, Op.write 0 frame200, Op.write 1 zeroMem, Op.release 0, Op.write 0 frame200]

/-- A region as another program can leave it under the shared-memory name: 72 bytes,
`image_offset = 0`, width 4, height 4, framerate `0.0f`, `is_active = 1`. -/
def foreignRegion : Region :=
  ⟨72, fun a => if a = 4 then 4 else if a = 6 then 4 else if a = 12 then 1 else 0⟩

/-- The region `foreignRegion` after a successful `open()`: `connected = 1`. -/
def foreignOpened : Region := ⟨72, Header.set_connected foreignRegion.mem 1⟩

/-- A frame of 4 by 4 pixels whose first 24 bytes read as a header with
`image_offset = 0`, width 5, height 4 and `is_active = 1`; all its other bytes
are 0. -/
def widthFiveFrame : Mem :=
  fun a => if a = 4 then 5 else if a = 6 then 4 else if a = 12 then 1 else 0

end softcam

namespace softcam

/-! ## Loads and stores -/

theorem rd8_lt (m : Mem) (a : Nat) : rd8 m a < 256 := (m a).isLt

theorem rd16_lt (m : Mem) (a : Nat) : rd16 m a < 65536 := by
  have h1 := rd8_lt m a
  have h2 := rd8_lt m (a + 1)
  unfold rd16; omega

theorem rd32_lt (m : Mem) (a : Nat) : rd32 m a < 4294967296 := by
  have h1 := rd16_lt m a
  have h2 := rd16_lt m (a + 2)
  unfold rd32; omega

theorem rd64_lt (m : Mem) (a : Nat) : rd64 m a < 18446744073709551616 := by
  have h1 := rd32_lt m a
  have h2 := rd32_lt m (a + 4)
  unfold rd64; omega

theorem wr8_apply (m : Mem) (a v x : Nat) :
    wr8 m a v x = if x = a then byteOf v else m x := rfl

theorem rd8_wr8 (m : Mem) (a v x : Nat) :
    rd8 (wr8 m a v) x = if x = a then v % 256 else rd8 m x := by
  unfold rd8 wr8
  split <;> simp [byteOf]

theorem wr8_of_ne (m : Mem) {a x : Nat} (v : Nat) (h : x ≠ a) : wr8 m a v x = m x := by
  simp [wr8, h]

theorem wr16_of_out (m : Mem) {a x : Nat} (v : Nat) (h : x < a ∨ a + 2 ≤ x) :
    wr16 m a v x = m x := by
  unfold wr16
  rw [wr8_of_ne _ _ (by omega), wr8_of_ne _ _ (by omega)]

theorem wr32_of_out (m : Mem) {a x : Nat} (v : Nat) (h : x < a ∨ a + 4 ≤ x) :
    wr32 m a v x = m x := by
  unfold wr32
  rw [wr16_of_out _ _ (by omega), wr16_of_out _ _ (by omega)]

theorem wr64_of_out (m : Mem) {a x : Nat} (v : Nat) (h : x < a ∨ a + 8 ≤ x) :
    wr64 m a v x = m x := by
  unfold wr64
  rw [wr32_of_out _ _ (by omega), wr32_of_out _ _ (by omega)]

theorem rd8_congr {m m' : Mem} {a : Nat} (h : m' a = m a) : rd8 m' a = rd8 m a := by
  unfold rd8; rw [h]

theorem rd16_congr {m m' : Mem} {a : Nat} (h : ∀ x, a ≤ x → x < a + 2 → m' x = m x) :
    rd16 m' a = rd16 m a := by
  unfold rd16
  rw [rd8_congr (h a (by omega) (by omega)), rd8_congr (h (a + 1) (by omega) (by omega))]

theorem rd32_congr {m m' : Mem} {a : Nat} (h : ∀ x, a ≤ x → x < a + 4 → m' x = m x) :
    rd32 m' a = rd32 m a := by
  unfold rd32
  rw [rd16_congr (fun x h1 h2 => h x (by omega) (by omega)),
    rd16_congr (fun x h1 h2 => h x (by omega) (by omega))]

theorem rd64_congr {m m' : Mem} {a : Nat} (h : ∀ x, a ≤ x → x < a + 8 → m' x = m x) :
    rd64 m' a = rd64 m a := by
  unfold rd64
  rw [rd32_congr (fun x h1 h2 => h x (by omega) (by omega)),
    rd32_congr (fun x h1 h2 => h x (by omega) (by omega))]

theorem rd16_wr16 (m : Mem) (a v : Nat) : rd16 (wr16 m a v) a = v % 65536 := by
  unfold rd16 wr16
  simp only [rd8_wr8]
  simp
  omega

theorem rd32_wr32 (m : Mem) (a v : Nat) : rd32 (wr32 m a v) a = v % 4294967296 := by
  unfold rd32 wr32
  rw [rd16_wr16, rd16_congr (fun x h1 h2 => wr16_of_out _ _ (by omega)), rd16_wr16]
  omega

theorem rd64_wr64 (m : Mem) (a v : Nat) :
    rd64 (wr64 m a v) a = v % 18446744073709551616 := by
  unfold rd64 wr64
  rw [rd32_wr32, rd32_congr (fun x h1 h2 => wr32_of_out _ _ (by omega)), rd32_wr32]
  omega

/-! ## Dimension checks and sizes -/

theorem checkDimensions_iff (width height : Int) :
    FrameBuffer.checkDimensions width height = true ↔
      (1 ≤ width ∧ width ≤ 16384 ∧ width % 4 = 0) ∧
      (1 ≤ height ∧ height ≤ 16384 ∧ height % 4 = 0) := by
  unfold FrameBuffer.checkDimensions
  have hw : 0 ≤ width → width.tmod 4 = width % 4 := fun h => Int.tmod_eq_emod h (by decide)
  have hh : 0 ≤ height → height.tmod 4 = height % 4 := fun h => Int.tmod_eq_emod h (by decide)
  constructor
  · intro h
    split at h
    · exact absurd h (by decide)
    · rename_i hn
      simp only [not_or, not_lt, Decidable.not_not] at hn
      obtain ⟨h1, h2, h3, h4, h5, h6⟩ := hn
      rw [hw (by omega)] at h3
      rw [hh (by omega)] at h6
      exact ⟨⟨h1, by omega, h3⟩, ⟨h4, by omega, h6⟩⟩
  · rintro ⟨⟨h1, h2, h3⟩, ⟨h4, h5, h6⟩⟩
    rw [if_neg]
    simp only [not_or, not_lt, Decidable.not_not]
    rw [hw (by omega), hh (by omega)]
    exact ⟨h1, by omega, h3, h4, by omega, h6⟩

theorem checkDimensions_nat {w h : Nat}
    (hd : FrameBuffer.checkDimensions (w : Int) (h : Int) = true) :
    (1 ≤ w ∧ w ≤ 16384 ∧ w % 4 = 0) ∧ (1 ≤ h ∧ h ≤ 16384 ∧ h % 4 = 0) := by
  have := (checkDimensions_iff _ _).1 hd
  omega

theorem toUInt16_of_valid {x : Int} (h1 : 1 ≤ x) (h2 : x ≤ 16384) :
    ((FrameBuffer.toUInt16 x : Nat) : Int) = x ∧ FrameBuffer.toUInt16 x ≤ 16384
      ∧ 1 ≤ FrameBuffer.toUInt16 x := by
  unfold FrameBuffer.toUInt16
  omega

theorem mul_le_sq {w h : Nat} (hw : w ≤ 16384) (hh : h ≤ 16384) : w * h ≤ 268435456 := by
  calc w * h ≤ 16384 * 16384 := Nat.mul_le_mul hw hh
    _ = 268435456 := by norm_num

theorem calcMemorySize_eq {w h : Nat} (hw : w ≤ 16384) (hh : h ≤ 16384) :
    FrameBuffer.calcMemorySize w h = 24 + w * h * 3 := by
  have := mul_le_sq hw hh
  unfold FrameBuffer.calcMemorySize sizeofHeader
  simp only []
  have e : w % 2 ^ 32 = w := Nat.mod_eq_of_lt (by omega)
  rw [e]
  generalize w * h = p at *
  omega

/-! ## Attachment: `open` -/

/-- The validation of `FrameBuffer::open`, in exact arithmetic. -/
theorem open_checks_iff (r : Region) :
    (¬ r.size < sizeofHeader ∧
      ¬ ((!FrameBuffer.checkDimensions (Header.m_width r.mem) (Header.m_height r.mem) ||
          f32_lt_zero (Header.m_framerate r.mem)) = true) ∧
      ¬ ((decide (r.size ≤ Header.m_image_offset r.mem) ||
          decide (r.size - Header.m_image_offset r.mem <
            ((Header.m_width r.mem % 2 ^ 32) * (Header.m_height r.mem % 2 ^ 32) % 2 ^ 32) * 3
              % 2 ^ 32)) = true)) ↔
    (sizeofHeader ≤ r.size ∧
      FrameBuffer.checkDimensions (Header.m_width r.mem) (Header.m_height r.mem) = true ∧
      f32_lt_zero (Header.m_framerate r.mem) = false ∧
      Header.m_image_offset r.mem + Header.m_width r.mem * Header.m_height r.mem * 3
        ≤ r.size) := by
  generalize Header.m_width r.mem = w
  generalize Header.m_height r.mem = h
  generalize Header.m_image_offset r.mem = off
  generalize f32_lt_zero (Header.m_framerate r.mem) = neg
  cases hd : FrameBuffer.checkDimensions (w : Int) (h : Int)
  · simp
  · obtain ⟨⟨hw1, hw2, -⟩, ⟨hh1, hh2, -⟩⟩ := checkDimensions_nat hd
    have hp := mul_le_sq hw2 hh2
    have hp1 : 1 ≤ w * h := Nat.mul_pos hw1 hh1
    have ew : w % 2 ^ 32 = w := Nat.mod_eq_of_lt (by omega)
    have eh : h % 2 ^ 32 = h := Nat.mod_eq_of_lt (by omega)
    rw [ew, eh]
    generalize w * h = p at *
    have e3 : p % 2 ^ 32 * 3 % 2 ^ 32 = p * 3 := by omega
    rw [e3]
    cases neg
    · simp; omega
    · simp

theorem open_eq_of_checks {r : Region}
    (h : sizeofHeader ≤ r.size ∧
      FrameBuffer.checkDimensions (Header.m_width r.mem) (Header.m_height r.mem) = true ∧
      f32_lt_zero (Header.m_framerate r.mem) = false ∧
      Header.m_image_offset r.mem + Header.m_width r.mem * Header.m_height r.mem * 3
        ≤ r.size) :
    FrameBuffer.open (some r) =
      (⟨some { r with mem := Header.set_connected r.mem 1 }⟩,
        some { r with mem := Header.set_connected r.mem 1 }) := by
  obtain ⟨h1, h2, h3⟩ := (open_checks_iff r).2 h
  simp only [FrameBuffer.open, SharedMemory.open]
  rw [if_neg h1, if_neg h2, if_neg h3]

theorem open_eq_of_not_checks {r : Region}
    (h : ¬ (sizeofHeader ≤ r.size ∧
      FrameBuffer.checkDimensions (Header.m_width r.mem) (Header.m_height r.mem) = true ∧
      f32_lt_zero (Header.m_framerate r.mem) = false ∧
      Header.m_image_offset r.mem + Header.m_width r.mem * Header.m_height r.mem * 3
        ≤ r.size)) :
    FrameBuffer.open (some r) = (⟨none⟩, some r) := by
  rw [← open_checks_iff r] at h
  simp only [FrameBuffer.open, SharedMemory.open]
  by_cases h1 : r.size < sizeofHeader
  · rw [if_pos h1]
  · rw [if_neg h1]
    split
    · rfl
    · rename_i h2
      split
      · rfl
      · rename_i h3
        exact absurd ⟨h1, h2, h3⟩ h

theorem open_none : FrameBuffer.open none = (⟨none⟩, none) := rfl

theorem initHeader_fields (m : Mem) (width height : Int) (framerate : Nat) :
    Header.m_image_offset (FrameBuffer.initHeader m width height framerate) = sizeofHeader ∧
    Header.m_width (FrameBuffer.initHeader m width height framerate)
      = FrameBuffer.toUInt16 width ∧
    Header.m_height (FrameBuffer.initHeader m width height framerate)
      = FrameBuffer.toUInt16 height ∧
    Header.m_framerate (FrameBuffer.initHeader m width height framerate)
      = framerate % 4294967296 ∧
    Header.m_is_active (FrameBuffer.initHeader m width height framerate) = 1 ∧
    Header.m_connected (FrameBuffer.initHeader m width height framerate) = 0 ∧
    Header.m_frame_counter (FrameBuffer.initHeader m width height framerate) = 0 := by
  have hw : FrameBuffer.toUInt16 width < 65536 := by unfold FrameBuffer.toUInt16; omega
  have hh : FrameBuffer.toUInt16 height < 65536 := by unfold FrameBuffer.toUInt16; omega
  unfold FrameBuffer.initHeader
  generalize FrameBuffer.toUInt16 width = W at *
  generalize FrameBuffer.toUInt16 height = H at *
  simp only [Header.m_image_offset, Header.m_image_offset, Header.m_width, Header.m_height,
    Header.m_framerate, Header.m_is_active, Header.m_connected, Header.m_frame_counter,
    Header.set_image_offset, Header.set_width, Header.set_height, Header.set_framerate,
    Header.set_is_active, Header.set_connected, Header.set_frame_counter, sizeofHeader,
    rd64, rd32, rd16, wr64, wr32, wr16, rd8_wr8]
  simp
  refine ⟨?_, ?_, ?_⟩ <;> omega

theorem initHeader_of_out (m : Mem) (width height : Int) (framerate : Nat) {x : Nat}
    (h : 24 ≤ x ∨ x = 14 ∨ x = 15) :
    FrameBuffer.initHeader m width height framerate x = m x := by
  simp only [FrameBuffer.initHeader, Header.set_image_offset, Header.set_width,
    Header.set_height, Header.set_framerate, Header.set_is_active, Header.set_connected,
    Header.set_frame_counter]
  rw [wr64_of_out _ _ (by omega), wr8_of_ne _ _ (by omega), wr8_of_ne _ _ (by omega),
    wr32_of_out _ _ (by omega), wr16_of_out _ _ (by omega), wr16_of_out _ _ (by omega),
    wr32_of_out _ _ (by omega)]

/-! ## Creation: `create` -/

theorem create_eq_of_invalid (existing : Option Region) (alloc : Nat → Option Region)
    (width height : Int) (framerate : Nat)
    (h : FrameBuffer.checkDimensions width height = false ∨ f32_lt_zero framerate = true) :
    FrameBuffer.create existing alloc width height framerate = (⟨none⟩, existing) := by
  unfold FrameBuffer.create
  rcases h with h | h
  · simp [h]
  · simp [h]

theorem create_eq_of_valid (existing : Option Region) (alloc : Nat → Option Region)
    (width height : Int) (framerate : Nat)
    (hd : FrameBuffer.checkDimensions width height = true)
    (hf : f32_lt_zero framerate = false) :
    FrameBuffer.create existing alloc width height framerate =
      match SharedMemory.create existing alloc (24 + width.toNat * height.toNat * 3) with
      | none => (⟨none⟩, existing)
      | some r =>
        (⟨some { r with mem := FrameBuffer.initHeader r.mem width height framerate }⟩,
          some { r with mem := FrameBuffer.initHeader r.mem width height framerate }) := by
  obtain ⟨⟨hw1, hw2, -⟩, ⟨hh1, hh2, -⟩⟩ := (checkDimensions_iff _ _).1 hd
  have ew : FrameBuffer.toUInt16 width = width.toNat := by
    unfold FrameBuffer.toUInt16; omega
  have eh : FrameBuffer.toUInt16 height = height.toNat := by
    unfold FrameBuffer.toUInt16; omega
  unfold FrameBuffer.create
  simp only [hd, hf, Bool.not_true, Bool.false_eq_true, if_false]
  rw [ew, eh, calcMemorySize_eq (by omega) (by omega)]

/-! ## Claims on `open` and `create` -/

/-- C1: `FrameBuffer::open` returns a live channel if and only if an object with the
shared-memory name exists and its region has a mapped size of at least
`sizeof(Header)` = 24, stored width and height that pass `checkDimensions` (each in
1..16384 and a multiple of 4), a stored framerate that is not negative, and
`image_offset + width*height*3 ≤` mapped size in exact arithmetic; in every other
case, in particular when no object exists, it returns a null channel. -/
theorem open_live_iff (existing : Option Region) :
    ((FrameBuffer.open existing).1.m_shmem.isSome = true ↔
      ∃ r, existing = some r ∧ 24 ≤ r.size ∧
        FrameBuffer.checkDimensions (Header.m_width r.mem) (Header.m_height r.mem) = true ∧
        ((1 ≤ Header.m_width r.mem ∧ Header.m_width r.mem ≤ 16384 ∧
            Header.m_width r.mem % 4 = 0) ∧
          (1 ≤ Header.m_height r.mem ∧ Header.m_height r.mem ≤ 16384 ∧
            Header.m_height r.mem % 4 = 0)) ∧
        f32_lt_zero (Header.m_framerate r.mem) = false ∧
        Header.m_image_offset r.mem + Header.m_width r.mem * Header.m_height r.mem * 3
          ≤ r.size) ∧
    ((FrameBuffer.open existing).1.m_shmem.isSome ≠ true →
      (FrameBuffer.open existing).1.m_shmem = none) ∧
    (FrameBuffer.open none).1.m_shmem = none := by
  refine ⟨?_, ?_, rfl⟩
  · cases existing with
    | none => simp [open_none]
    | some r =>
      by_cases hc : sizeofHeader ≤ r.size ∧
          FrameBuffer.checkDimensions (Header.m_width r.mem) (Header.m_height r.mem) = true ∧
          f32_lt_zero (Header.m_framerate r.mem) = false ∧
          Header.m_image_offset r.mem + Header.m_width r.mem * Header.m_height r.mem * 3
            ≤ r.size
      · rw [open_eq_of_checks hc]
        obtain ⟨h1, h2, h3, h4⟩ := hc
        simp only [Option.isSome_some, true_iff]
        exact ⟨r, rfl, h1, h2, checkDimensions_nat h2, h3, h4⟩
      · rw [open_eq_of_not_checks hc]
        simp only [Option.isSome_none, Bool.false_eq_true, false_iff]
        rintro ⟨r', hr, h1, h2, -, h3, h4⟩
        cases hr
        exact hc ⟨h1, h2, h3, h4⟩
  · intro h
    cases hs : (FrameBuffer.open existing).1.m_shmem with
    | none => rfl
    | some r => rw [hs] at h; exact absurd rfl h

/-- C2: `FrameBuffer::create` returns a null channel whenever the width or the height
is below 1, above 16384 or not a multiple of 4, or the framerate is negative; then
no region is created (the named object is as before), every query on the result
returns its zero value and `write` does nothing.  Conversely, when the dimensions
pass, the framerate is at least zero and the allocation of the region succeeds,
the result is a live channel. -/
theorem create_null_or_live (existing : Option Region) (alloc : Nat → Option Region)
    (width height : Int) (framerate : Nat) :
    ((width < 1 ∨ width > 16384 ∨ width % 4 ≠ 0 ∨
        height < 1 ∨ height > 16384 ∨ height % 4 ≠ 0 ∨ f32_lt_zero framerate = true) →
      (FrameBuffer.create existing alloc width height framerate).1.m_shmem = none ∧
      (FrameBuffer.create existing alloc width height framerate).2 = existing ∧
      (FrameBuffer.create existing alloc width height framerate).1.width = 0 ∧
      (FrameBuffer.create existing alloc width height framerate).1.height = 0 ∧
      (FrameBuffer.create existing alloc width height framerate).1.framerate = 0 ∧
      (FrameBuffer.create existing alloc width height framerate).1.frameCounter = 0 ∧
      (FrameBuffer.create existing alloc width height framerate).1.active = false ∧
      (FrameBuffer.create existing alloc width height framerate).1.connected = false ∧
      ∀ image_bits : Mem,
        (FrameBuffer.create existing alloc width height framerate).1.write image_bits =
          (FrameBuffer.create existing alloc width height framerate).1) ∧
    (((1 ≤ width ∧ width ≤ 16384 ∧ width % 4 = 0) ∧
        (1 ≤ height ∧ height ≤ 16384 ∧ height % 4 = 0) ∧
        f32_ge_zero framerate = true ∧
        (SharedMemory.create existing alloc
          (FrameBuffer.calcMemorySize (FrameBuffer.toUInt16 width)
            (FrameBuffer.toUInt16 height))).isSome = true) →
      (FrameBuffer.create existing alloc width height framerate).1.m_shmem.isSome = true) := by
  constructor
  · intro h
    have hinv : FrameBuffer.checkDimensions width height = false ∨
        f32_lt_zero framerate = true := by
      by_cases hf : f32_lt_zero framerate = true
      · exact Or.inr hf
      · left
        cases hd : FrameBuffer.checkDimensions width height with
        | false => rfl
        | true =>
          have hv := (checkDimensions_iff _ _).1 hd
          rcases h with h | h | h | h | h | h | h
          · omega
          · omega
          · omega
          · omega
          · omega
          · omega
          · exact absurd h hf
    rw [create_eq_of_invalid existing alloc width height framerate hinv]
    exact ⟨rfl, rfl, rfl, rfl, rfl, rfl, rfl, rfl, fun _ => rfl⟩
  · rintro ⟨hw, hh, hf, ha⟩
    have hd : FrameBuffer.checkDimensions width height = true :=
      (checkDimensions_iff _ _).2 ⟨hw, hh⟩
    have hneg : f32_lt_zero framerate = false := by
      unfold f32_ge_zero at hf
      unfold f32_lt_zero
      simp only [decide_eq_true_eq] at hf
      simp only [decide_eq_false_iff_not]
      omega
    unfold FrameBuffer.create
    simp only [hd, hneg, Bool.not_true, Bool.false_eq_true, if_false]
    cases hs : SharedMemory.create existing alloc
        (FrameBuffer.calcMemorySize (FrameBuffer.toUInt16 width)
          (FrameBuffer.toUInt16 height)) with
    | none => rw [hs] at ha; exact absurd ha (by simp)
    | some r => rfl

theorem create_null_or_live_witness :
    (((0 : Int) < 1 ∨ (0 : Int) > 16384 ∨ (0 : Int) % 4 ≠ 0 ∨
        (4 : Int) < 1 ∨ (4 : Int) > 16384 ∨ (4 : Int) % 4 ≠ 0 ∨ f32_lt_zero 0 = true) ∧
      (FrameBuffer.create none allocZero 0 4 0).1.m_shmem = none ∧
      (FrameBuffer.create none allocZero 0 4 0).2 = none ∧
      (FrameBuffer.create none allocZero 0 4 0).1.width = 0 ∧
      (FrameBuffer.create none allocZero 0 4 0).1.height = 0 ∧
      (FrameBuffer.create none allocZero 0 4 0).1.framerate = 0 ∧
      (FrameBuffer.create none allocZero 0 4 0).1.frameCounter = 0 ∧
      (FrameBuffer.create none allocZero 0 4 0).1.active = false ∧
      (FrameBuffer.create none allocZero 0 4 0).1.connected = false ∧
      (FrameBuffer.create none allocZero 0 4 0).1.write zeroMem =
        (FrameBuffer.create none allocZero 0 4 0).1) ∧
    ((((1 : Int) ≤ 4 ∧ (4 : Int) ≤ 16384 ∧ (4 : Int) % 4 = 0) ∧
        ((1 : Int) ≤ 4 ∧ (4 : Int) ≤ 16384 ∧ (4 : Int) % 4 = 0) ∧
        f32_ge_zero 0 = true ∧
        (SharedMemory.create none allocZero
          (FrameBuffer.calcMemorySize (FrameBuffer.toUInt16 4)
            (FrameBuffer.toUInt16 4))).isSome = true) ∧
      (FrameBuffer.create none allocZero 4 4 0).1.m_shmem.isSome = true) :=
  have h1 : ((0 : Int) < 1 ∨ (0 : Int) > 16384 ∨ (0 : Int) % 4 ≠ 0 ∨
      (4 : Int) < 1 ∨ (4 : Int) > 16384 ∨ (4 : Int) % 4 ≠ 0 ∨ f32_lt_zero 0 = true) := by
    decide
  have h2 : (((1 : Int) ≤ 4 ∧ (4 : Int) ≤ 16384 ∧ (4 : Int) % 4 = 0) ∧
      ((1 : Int) ≤ 4 ∧ (4 : Int) ≤ 16384 ∧ (4 : Int) % 4 = 0) ∧
      f32_ge_zero 0 = true ∧
      (SharedMemory.create none allocZero
        (FrameBuffer.calcMemorySize (FrameBuffer.toUInt16 4)
          (FrameBuffer.toUInt16 4))).isSome = true) := by
    decide
  have t1 := (create_null_or_live none allocZero 0 4 0).1 h1
  ⟨⟨h1, t1.1, t1.2.1, t1.2.2.1, t1.2.2.2.1, t1.2.2.2.2.1, t1.2.2.2.2.2.1, t1.2.2.2.2.2.2.1,
      t1.2.2.2.2.2.2.2.1, t1.2.2.2.2.2.2.2.2 zeroMem⟩,
    ⟨h2, (create_null_or_live none allocZero 4 4 0).2 h2⟩⟩

theorem sharedMemory_create_some {existing : Option Region} {alloc : Nat → Option Region}
    {size : Nat} {r : Region} (h : SharedMemory.create existing alloc size = some r) :
    existing = none ∧ alloc size = some r ∧ size ≤ r.size ∧ size ≠ 0 := by
  unfold SharedMemory.create at h
  split at h
  · exact absurd h (by simp)
  · rename_i hs
    cases existing with
    | some _ => exact absurd h (by simp)
    | none =>
      simp only at h
      cases ha : alloc size with
      | none => rw [ha] at h; exact absurd h (by simp)
      | some r0 =>
        rw [ha] at h
        simp only at h
        split at h
        · rename_i hle
          cases h
          exact ⟨rfl, rfl, hle, hs⟩
        · exact absurd h (by simp)

/-- What a successful `create` did: the dimensions and the framerate passed, the
region came from `SharedMemory::create` with the size `24 + width*height*3`, and
the header was initialised on it. -/
theorem create_live_inv {existing : Option Region} {alloc : Nat → Option Region}
    {width height : Int} {framerate : Nat}
    (hc : (FrameBuffer.create existing alloc width height framerate).1.m_shmem.isSome = true) :
    FrameBuffer.checkDimensions width height = true ∧ f32_lt_zero framerate = false ∧
    ∃ r0, SharedMemory.create existing alloc (24 + width.toNat * height.toNat * 3) = some r0 ∧
      FrameBuffer.create existing alloc width height framerate =
        (⟨some { r0 with mem := FrameBuffer.initHeader r0.mem width height framerate }⟩,
          some { r0 with mem := FrameBuffer.initHeader r0.mem width height framerate }) := by
  cases hd : FrameBuffer.checkDimensions width height with
  | false =>
    rw [create_eq_of_invalid _ _ _ _ _ (Or.inl hd)] at hc
    exact absurd hc (by simp)
  | true =>
    cases hf : f32_lt_zero framerate with
    | true =>
      rw [create_eq_of_invalid _ _ _ _ _ (Or.inr hf)] at hc
      exact absurd hc (by simp)
    | false =>
      rw [create_eq_of_valid _ _ _ _ _ hd hf] at hc ⊢
      cases hs : SharedMemory.create existing alloc (24 + width.toNat * height.toNat * 3) with
      | none => rw [hs] at hc; exact absurd hc (by simp)
      | some r0 => exact ⟨rfl, rfl, r0, rfl, rfl⟩

/-- C4: after a successful `create(width, height, framerate)` the region was requested
with the size `sizeof(Header) + width*height*3 = 24 + width*height*3`, and the header
reads `image_offset = 24`, the width, height and framerate of the call,
`is_active = 1`, `connected = 0` and `frame_counter = 0`; so `active()` is true,
`connected()` is false and `frameCounter()` is 0. -/
theorem create_header (existing : Option Region) (alloc : Nat → Option Region)
    (width height : Int) (framerate : Nat) (hbits : framerate < 2 ^ 32)
    (hc : (FrameBuffer.create existing alloc width height framerate).1.m_shmem.isSome = true) :
    FrameBuffer.calcMemorySize (FrameBuffer.toUInt16 width) (FrameBuffer.toUInt16 height)
      = sizeofHeader + width.toNat * height.toNat * 3 ∧
    sizeofHeader = 24 ∧
    ∃ r0 r, alloc (24 + width.toNat * height.toNat * 3) = some r0 ∧
      SharedMemory.create existing alloc (24 + width.toNat * height.toNat * 3) = some r0 ∧
      (FrameBuffer.create existing alloc width height framerate).1.m_shmem = some r ∧
      (FrameBuffer.create existing alloc width height framerate).2 = some r ∧
      r.size = r0.size ∧
      Header.m_image_offset r.mem = 24 ∧
      (Header.m_width r.mem : Int) = width ∧
      (Header.m_height r.mem : Int) = height ∧
      Header.m_framerate r.mem = framerate ∧
      Header.m_is_active r.mem = 1 ∧
      Header.m_connected r.mem = 0 ∧
      Header.m_frame_counter r.mem = 0 ∧
      (FrameBuffer.create existing alloc width height framerate).1.active = true ∧
      (FrameBuffer.create existing alloc width height framerate).1.connected = false ∧
      (FrameBuffer.create existing alloc width height framerate).1.frameCounter = 0 := by
  obtain ⟨hd, -, r0, hs, he⟩ := create_live_inv hc
  obtain ⟨⟨hw1, hw2, -⟩, ⟨hh1, hh2, -⟩⟩ := (checkDimensions_iff _ _).1 hd
  obtain ⟨ew, -, -⟩ := toUInt16_of_valid hw1 hw2
  obtain ⟨eh, -, -⟩ := toUInt16_of_valid hh1 hh2
  have ew' : FrameBuffer.toUInt16 width = width.toNat := by omega
  have eh' : FrameBuffer.toUInt16 height = height.toNat := by omega
  obtain ⟨f1, f2, f3, f4, f5, f6, f7⟩ := initHeader_fields r0.mem width height framerate
  refine ⟨?_, rfl, r0, { r0 with mem := FrameBuffer.initHeader r0.mem width height framerate },
    (sharedMemory_create_some hs).2.1, hs, ?_, ?_, rfl, f1, ?_, ?_, ?_, f5, f6, f7, ?_, ?_, ?_⟩
  · rw [ew', eh', calcMemorySize_eq (by omega) (by omega)]; rfl
  · rw [he]
  · rw [he]
  · simp only []; rw [f2]; exact ew
  · simp only []; rw [f3]; exact eh
  · simp only []; rw [f4]; exact Nat.mod_eq_of_lt (by omega)
  · rw [he]; simp only [FrameBuffer.active]; rw [f5]; rfl
  · rw [he]; simp only [FrameBuffer.connected]; rw [f6]; rfl
  · rw [he]; simp only [FrameBuffer.frameCounter]; exact f7

theorem create_header_witness :
    ((0 : Nat) < 2 ^ 32 ∧
      (FrameBuffer.create none allocZero 4 4 0).1.m_shmem.isSome = true) ∧
    (FrameBuffer.calcMemorySize (FrameBuffer.toUInt16 4) (FrameBuffer.toUInt16 4)
      = sizeofHeader + (4 : Int).toNat * (4 : Int).toNat * 3 ∧
    sizeofHeader = 24 ∧
    ∃ r0 r, allocZero (24 + (4 : Int).toNat * (4 : Int).toNat * 3) = some r0 ∧
      SharedMemory.create none allocZero (24 + (4 : Int).toNat * (4 : Int).toNat * 3)
        = some r0 ∧
      (FrameBuffer.create none allocZero 4 4 0).1.m_shmem = some r ∧
      (FrameBuffer.create none allocZero 4 4 0).2 = some r ∧
      r.size = r0.size ∧
      Header.m_image_offset r.mem = 24 ∧
      (Header.m_width r.mem : Int) = 4 ∧
      (Header.m_height r.mem : Int) = 4 ∧
      Header.m_framerate r.mem = 0 ∧
      Header.m_is_active r.mem = 1 ∧
      Header.m_connected r.mem = 0 ∧
      Header.m_frame_counter r.mem = 0 ∧
      (FrameBuffer.create none allocZero 4 4 0).1.active = true ∧
      (FrameBuffer.create none allocZero 4 4 0).1.connected = false ∧
      (FrameBuffer.create none allocZero 4 4 0).1.frameCounter = 0) :=
  ⟨⟨by decide, by decide⟩, create_header none allocZero 4 4 0 (by decide) (by decide)⟩

/-- C3: for every valid width and height (each in 4..16384 and a multiple of 4) and
every framerate that is at least zero, when `create(width, height, framerate)`
succeeds (the region it got has at least the requested size), an `open()` that
follows immediately passes all of its validation checks and returns a live channel
whose `width()`, `height()` and `framerate()` are the values passed to `create`. -/
theorem create_then_open (existing : Option Region) (alloc : Nat → Option Region)
    (width height : Int) (framerate : Nat)
    (hw : 4 ≤ width ∧ width ≤ 16384 ∧ width % 4 = 0)
    (hh : 4 ≤ height ∧ height ≤ 16384 ∧ height % 4 = 0)
    (hf : f32_ge_zero framerate = true)
    (hc : (FrameBuffer.create existing alloc width height framerate).1.m_shmem.isSome = true) :
    (∃ r, (FrameBuffer.create existing alloc width height framerate).2 = some r ∧
      24 + width.toNat * height.toNat * 3 ≤ r.size ∧
      sizeofHeader ≤ r.size ∧
      FrameBuffer.checkDimensions (Header.m_width r.mem) (Header.m_height r.mem) = true ∧
      f32_lt_zero (Header.m_framerate r.mem) = false ∧
      Header.m_image_offset r.mem + Header.m_width r.mem * Header.m_height r.mem * 3
        ≤ r.size) ∧
    (FrameBuffer.open
      (FrameBuffer.create existing alloc width height framerate).2).1.m_shmem.isSome = true ∧
    (FrameBuffer.open
      (FrameBuffer.create existing alloc width height framerate).2).1.width = width ∧
    (FrameBuffer.open
      (FrameBuffer.create existing alloc width height framerate).2).1.height = height ∧
    (FrameBuffer.open
      (FrameBuffer.create existing alloc width height framerate).2).1.framerate = framerate := by
  obtain ⟨hd, hneg, r0, hs, he⟩ := create_live_inv hc
  obtain ⟨ew, -, -⟩ := toUInt16_of_valid (x := width) (by omega) (by omega)
  obtain ⟨eh, -, -⟩ := toUInt16_of_valid (x := height) (by omega) (by omega)
  obtain ⟨f1, f2, f3, f4, -, -, -⟩ := initHeader_fields r0.mem width height framerate
  have hbits : framerate < 4294967296 := by
    unfold f32_ge_zero at hf
    simp only [decide_eq_true_eq] at hf
    omega
  have f4' : Header.m_framerate (FrameBuffer.initHeader r0.mem width height framerate)
      = framerate := by rw [f4]; exact Nat.mod_eq_of_lt hbits
  have hsize := (sharedMemory_create_some hs).2.2.1
  have hchk : sizeofHeader ≤ r0.size ∧
      FrameBuffer.checkDimensions
        (Header.m_width (FrameBuffer.initHeader r0.mem width height framerate))
        (Header.m_height (FrameBuffer.initHeader r0.mem width height framerate)) = true ∧
      f32_lt_zero (Header.m_framerate (FrameBuffer.initHeader r0.mem width height framerate))
        = false ∧
      Header.m_image_offset (FrameBuffer.initHeader r0.mem width height framerate) +
        Header.m_width (FrameBuffer.initHeader r0.mem width height framerate) *
          Header.m_height (FrameBuffer.initHeader r0.mem width height framerate) * 3
        ≤ r0.size := by
    rw [f1, f2, f3, f4', ew, eh]
    refine ⟨by unfold sizeofHeader; omega, hd, hneg, ?_⟩
    have e1 : FrameBuffer.toUInt16 width = width.toNat := by omega
    have e2 : FrameBuffer.toUInt16 height = height.toNat := by omega
    rw [e1, e2]
    exact hsize
  have hopen := open_eq_of_checks
    (r := { r0 with mem := FrameBuffer.initHeader r0.mem width height framerate }) hchk
  rw [he]
  simp only [] at hopen ⊢
  rw [hopen]
  refine ⟨⟨_, rfl, hsize, hchk⟩, rfl, ?_, ?_, ?_⟩
  · simp only [FrameBuffer.width, Header.m_width, Header.set_connected]
    rw [rd16_congr (fun x h1 h2 => wr8_of_ne _ _ (by omega))]
    show ((Header.m_width (FrameBuffer.initHeader r0.mem width height framerate) : Nat) : Int)
      = width
    rw [f2]; exact ew
  · simp only [FrameBuffer.height, Header.m_height, Header.set_connected]
    rw [rd16_congr (fun x h1 h2 => wr8_of_ne _ _ (by omega))]
    show ((Header.m_height (FrameBuffer.initHeader r0.mem width height framerate) : Nat) : Int)
      = height
    rw [f3]; exact eh
  · simp only [FrameBuffer.framerate, Header.m_framerate, Header.set_connected]
    rw [rd32_congr (fun x h1 h2 => wr8_of_ne _ _ (by omega))]
    exact f4'

theorem create_then_open_witness :
    (((4 : Int) ≤ 4 ∧ (4 : Int) ≤ 16384 ∧ (4 : Int) % 4 = 0) ∧
      ((4 : Int) ≤ 8 ∧ (8 : Int) ≤ 16384 ∧ (8 : Int) % 4 = 0) ∧
      f32_ge_zero 0x41F00000 = true ∧
      (FrameBuffer.create none allocZero 4 8 0x41F00000).1.m_shmem.isSome = true) ∧
    ((∃ r, (FrameBuffer.create none allocZero 4 8 0x41F00000).2 = some r ∧
      24 + (4 : Int).toNat * (8 : Int).toNat * 3 ≤ r.size ∧
      sizeofHeader ≤ r.size ∧
      FrameBuffer.checkDimensions (Header.m_width r.mem) (Header.m_height r.mem) = true ∧
      f32_lt_zero (Header.m_framerate r.mem) = false ∧
      Header.m_image_offset r.mem + Header.m_width r.mem * Header.m_height r.mem * 3
        ≤ r.size) ∧
    (FrameBuffer.open
      (FrameBuffer.create none allocZero 4 8 0x41F00000).2).1.m_shmem.isSome = true ∧
    (FrameBuffer.open (FrameBuffer.create none allocZero 4 8 0x41F00000).2).1.width = 4 ∧
    (FrameBuffer.open (FrameBuffer.create none allocZero 4 8 0x41F00000).2).1.height = 8 ∧
    (FrameBuffer.open (FrameBuffer.create none allocZero 4 8 0x41F00000).2).1.framerate
      = 0x41F00000) :=
  ⟨⟨by decide, by decide, by decide, by decide⟩,
    create_then_open none allocZero 4 8 0x41F00000 (by decide) (by decide) (by decide)
      (by decide)⟩

/-! ## The producer side: `write` -/

theorem memcpy_apply (dst : Mem) (d : Nat) (src : Mem) (s n x : Nat) :
    memcpy dst d src s n x = if d ≤ x ∧ x < d + n then src (s + (x - d)) else dst x := by
  induction n with
  | zero =>
    have hn : ¬ (d ≤ x ∧ x < d + 0) := by omega
    rw [if_neg hn]; rfl
  | succ n ih =>
    show (if x = d + n then src (s + n) else memcpy dst d src s n x) = _
    by_cases hx : x = d + n
    · have hin : d ≤ x ∧ x < d + (n + 1) := by omega
      rw [if_pos hx, if_pos hin]
      have e : x - d = n := by omega
      rw [e]
    · rw [if_neg hx, ih]
      by_cases hin : d ≤ x ∧ x < d + n
      · have hin' : d ≤ x ∧ x < d + (n + 1) := by omega
        rw [if_pos hin, if_pos hin']
      · have hin' : ¬ (d ≤ x ∧ x < d + (n + 1)) := by omega
        rw [if_neg hin, if_neg hin']

theorem memcpy_of_in (dst : Mem) (d : Nat) (src : Mem) (s : Nat) {n k : Nat} (h : k < n) :
    memcpy dst d src s n (d + k) = src (s + k) := by
  rw [memcpy_apply, if_pos (by omega)]
  have e : d + k - d = k := by omega
  rw [e]

theorem memcpy_of_out (dst : Mem) (d : Nat) (src : Mem) (s : Nat) {n x : Nat}
    (h : x < d ∨ d + n ≤ x) : memcpy dst d src s n x = dst x := by
  rw [memcpy_apply, if_neg (by omega)]

/-- The effect of `write` on a region whose pixel range starts behind the header. -/
theorem write_spec (fb : FrameBuffer) (r : Region) (image_bits : Mem)
    (hlive : fb.m_shmem = some r)
    (hoff : sizeofHeader ≤ Header.m_image_offset r.mem) :
    ∃ r', (fb.write image_bits).m_shmem = some r' ∧ r'.size = r.size ∧
      (∀ k, k < Header.m_width r.mem * Header.m_height r.mem * 3 →
        r'.mem (Header.m_image_offset r.mem + k) = image_bits k) ∧
      Header.m_frame_counter r'.mem = (Header.m_frame_counter r.mem + 1) % 2 ^ 64 ∧
      Header.m_image_offset r'.mem = Header.m_image_offset r.mem ∧
      Header.m_width r'.mem = Header.m_width r.mem ∧
      Header.m_height r'.mem = Header.m_height r.mem ∧
      Header.m_framerate r'.mem = Header.m_framerate r.mem ∧
      Header.m_is_active r'.mem = Header.m_is_active r.mem ∧
      Header.m_connected r'.mem = Header.m_connected r.mem ∧
      r'.mem = wr64 (memcpy r.mem (Header.m_image_offset r.mem) image_bits 0
          (Header.m_width r.mem * Header.m_height r.mem * 3)) 16
        ((Header.m_frame_counter r.mem + 1) % 2 ^ 64) := by
  obtain ⟨s0⟩ := fb
  simp only at hlive
  subst hlive
  unfold sizeofHeader at hoff
  have e3 : 3 * Header.m_width r.mem * Header.m_height r.mem
      = Header.m_width r.mem * Header.m_height r.mem * 3 := by ring
  simp only [FrameBuffer.write, Header.imageData, Header.set_frame_counter, e3]
  generalize hn : Header.m_width r.mem * Header.m_height r.mem * 3 = n
  have hhead : ∀ x, x < 24 →
      memcpy r.mem (Header.m_image_offset r.mem) image_bits 0 n x = r.mem x :=
    fun x hx => memcpy_of_out _ _ _ _ (Or.inl (by omega))
  have hfin : ∀ x v, (x < 16 ∨ 24 ≤ x) →
      wr64 (memcpy r.mem (Header.m_image_offset r.mem) image_bits 0 n) 16 v x
        = memcpy r.mem (Header.m_image_offset r.mem) image_bits 0 n x :=
    fun x v hx => wr64_of_out _ _ (by omega)
  have hall : ∀ x v, x < 16 →
      wr64 (memcpy r.mem (Header.m_image_offset r.mem) image_bits 0 n) 16 v x = r.mem x :=
    fun x v hx => by rw [hfin x v (Or.inl hx), hhead x (by omega)]
  have hcnt : Header.m_frame_counter (memcpy r.mem (Header.m_image_offset r.mem) image_bits 0 n)
      = Header.m_frame_counter r.mem :=
    rd64_congr (fun x h1 h2 => hhead x (by omega))
  refine ⟨_, rfl, rfl, ?_, ?_, ?_, ?_, ?_, ?_, ?_, ?_, ?_⟩
  · intro k hk
    simp only []
    rw [hfin _ _ (Or.inr (by omega)), memcpy_of_in _ _ _ _ hk, Nat.zero_add]
  · simp only [Header.m_frame_counter] at hcnt ⊢
    rw [rd64_wr64, hcnt]
    omega
  · exact rd32_congr (fun x h1 h2 => hall x _ (by omega))
  · exact rd16_congr (fun x h1 h2 => hall x _ (by omega))
  · exact rd16_congr (fun x h1 h2 => hall x _ (by omega))
  · exact rd32_congr (fun x h1 h2 => hall x _ (by omega))
  · show rd8 (wr64 _ 16 _) 12 = rd8 r.mem 12
    unfold rd8; rw [hall 12 _ (by omega)]
  · show rd8 (wr64 _ 16 _) 13 = rd8 r.mem 13
    unfold rd8; rw [hall 13 _ (by omega)]
  · simp only []
    rw [hcnt]

theorem row_lt_of_lt {y k i n t : Nat} (hy : y < k) (hi : i < n) (hn : n ≤ t) :
    y * t + i < k * t := by
  have h1 : (y + 1) * t ≤ k * t := Nat.mul_le_mul_right t hy
  rw [Nat.succ_mul] at h1
  omega

/-- The state of the row loop after `k` iterations. -/
theorem copyRows_fold (image : Mem) (imageData w h : Nat) (out : Mem) (k : Nat) :
    ((List.range k).foldl (FrameBuffer.copyRow image imageData w h) (0, out)).1
        = k * (3 * w + FrameBuffer.gap w) ∧
    (∀ y, y < k → ∀ i, i < 3 * w →
      ((List.range k).foldl (FrameBuffer.copyRow image imageData w h) (0, out)).2
          (y * (3 * w + FrameBuffer.gap w) + i)
        = image (imageData + 3 * w * (h - 1 - y) + i)) ∧
    (∀ x, (∀ y, y < k → ∀ i, i < 3 * w → x ≠ y * (3 * w + FrameBuffer.gap w) + i) →
      ((List.range k).foldl (FrameBuffer.copyRow image imageData w h) (0, out)).2 x = out x) := by
  induction k with
  | zero =>
    refine ⟨by simp, fun y hy => absurd hy (Nat.not_lt_zero y), fun x _ => rfl⟩
  | succ k ih =>
    obtain ⟨ih1, ih2, ih3⟩ := ih
    rw [List.range_succ, List.foldl_append, List.foldl_cons, List.foldl_nil]
    generalize (List.range k).foldl (FrameBuffer.copyRow image imageData w h) (0, out) = st at *
    obtain ⟨dest, o⟩ := st
    simp only at ih1 ih2 ih3
    subst ih1
    simp only [FrameBuffer.copyRow]
    refine ⟨by ring, ?_, ?_⟩
    · intro y hy i hi
      by_cases hyk : y = k
      · subst hyk
        exact memcpy_of_in _ _ _ _ hi
      · have hlt := row_lt_of_lt (t := 3 * w + FrameBuffer.gap w)
          (show y < k by omega) hi (by omega)
        rw [memcpy_of_out _ _ _ _ (Or.inl hlt)]
        exact ih2 y (by omega) i hi
    · intro x hx
      have hk : x < k * (3 * w + FrameBuffer.gap w) ∨
          k * (3 * w + FrameBuffer.gap w) + 3 * w ≤ x := by
        by_contra hc
        exact hx k (by omega) (x - k * (3 * w + FrameBuffer.gap w)) (by omega) (by omega)
      rw [memcpy_of_out _ _ _ _ hk]
      exact ih3 x (fun y hy i hi => hx y (by omega) i hi)

theorem copyRows_spec (image : Mem) (imageData w h : Nat) (out : Mem) :
    (∀ y, y < h → ∀ i, i < 3 * w →
      (FrameBuffer.copyRows image imageData w h out).2 (y * (3 * w + FrameBuffer.gap w) + i)
        = image (imageData + 3 * w * (h - 1 - y) + i)) ∧
    (∀ x, (∀ y, y < h → ∀ i, i < 3 * w → x ≠ y * (3 * w + FrameBuffer.gap w) + i) →
      (FrameBuffer.copyRows image imageData w h out).2 x = out x) :=
  (copyRows_fold image imageData w h out h).2

/-- The state of the inner darkening loop after `n` pixels. -/
theorem darkenPixel_iterate (n d : Nat) (o : Mem) :
    (FrameBuffer.darkenPixel^[n] (d, o)).1 = d + 3 * n ∧
    ∀ x, (FrameBuffer.darkenPixel^[n] (d, o)).2 x
      = if d ≤ x ∧ x < d + 3 * n then byteOf (rd8 o x / 4) else o x := by
  induction n with
  | zero =>
    refine ⟨rfl, fun x => ?_⟩
    rw [if_neg (by omega)]; rfl
  | succ n ih =>
    rw [Function.iterate_succ_apply']
    generalize FrameBuffer.darkenPixel^[n] (d, o) = st at *
    obtain ⟨dest, m⟩ := st
    simp only at ih
    obtain ⟨ih1, ih2⟩ := ih
    subst ih1
    simp only [FrameBuffer.darkenPixel]
    refine ⟨by omega, fun x => ?_⟩
    have e0 : rd8 m (d + 3 * n) = rd8 o (d + 3 * n) := by
      unfold rd8; rw [ih2, if_neg (by omega)]
    have e1 : rd8 m (d + 3 * n + 1) = rd8 o (d + 3 * n + 1) := by
      unfold rd8; rw [ih2, if_neg (by omega)]
    have e2 : rd8 m (d + 3 * n + 2) = rd8 o (d + 3 * n + 2) := by
      unfold rd8; rw [ih2, if_neg (by omega)]
    rw [e0, e1, e2]
    simp only [wr8_apply]
    by_cases h2 : x = d + 3 * n + 2
    · subst h2; rw [if_pos rfl, if_pos (by omega)]
    · rw [if_neg h2]
      by_cases h1 : x = d + 3 * n + 1
      · subst h1; rw [if_pos rfl, if_pos (by omega)]
      · rw [if_neg h1]
        by_cases h0 : x = d + 3 * n
        · subst h0; rw [if_pos rfl, if_pos (by omega)]
        · rw [if_neg h0, ih2]
          by_cases hin : d ≤ x ∧ x < d + 3 * n
          · rw [if_pos hin, if_pos (by omega)]
          · rw [if_neg hin, if_neg (by omega)]

/-- The state of the outer darkening loop after `k` rows. -/
theorem darkenRow_iterate (w k : Nat) (o : Mem) :
    ((FrameBuffer.darkenRow w)^[k] (0, o)).1 = k * (3 * w + FrameBuffer.gap w) ∧
    (∀ y, y < k → ∀ i, i < 3 * w →
      ((FrameBuffer.darkenRow w)^[k] (0, o)).2 (y * (3 * w + FrameBuffer.gap w) + i)
        = byteOf (rd8 o (y * (3 * w + FrameBuffer.gap w) + i) / 4)) ∧
    (∀ x, (∀ y, y < k → ∀ i, i < 3 * w → x ≠ y * (3 * w + FrameBuffer.gap w) + i) →
      ((FrameBuffer.darkenRow w)^[k] (0, o)).2 x = o x) := by
  induction k with
  | zero =>
    refine ⟨by simp, fun y hy => absurd hy (Nat.not_lt_zero y), fun x _ => rfl⟩
  | succ k ih =>
    obtain ⟨ih1, ih2, ih3⟩ := ih
    rw [Function.iterate_succ_apply']
    generalize (FrameBuffer.darkenRow w)^[k] (0, o) = st at *
    obtain ⟨dest, m⟩ := st
    simp only at ih1 ih2 ih3
    subst ih1
    obtain ⟨p1, p2⟩ := darkenPixel_iterate w (k * (3 * w + FrameBuffer.gap w)) m
    simp only [FrameBuffer.darkenRow]
    refine ⟨by rw [p1]; ring, ?_, ?_⟩
    · intro y hy i hi
      rw [p2]
      by_cases hyk : y = k
      · subst hyk
        rw [if_pos (by omega)]
        have hm : m (y * (3 * w + FrameBuffer.gap w) + i)
            = o (y * (3 * w + FrameBuffer.gap w) + i) := by
          apply ih3
          intro y' hy' i' hi'
          have := row_lt_of_lt (t := 3 * w + FrameBuffer.gap w) hy' hi' (by omega)
          omega
        unfold rd8
        rw [hm]
      · have hlt := row_lt_of_lt (t := 3 * w + FrameBuffer.gap w)
          (show y < k by omega) hi (by omega)
        rw [if_neg (by omega)]
        exact ih2 y (by omega) i hi
    · intro x hx
      rw [p2]
      have hk : ¬ (k * (3 * w + FrameBuffer.gap w) ≤ x ∧
          x < k * (3 * w + FrameBuffer.gap w) + 3 * w) := by
        intro hc
        exact hx k (by omega) (x - k * (3 * w + FrameBuffer.gap w)) (by omega) (by omega)
      rw [if_neg hk]
      exact ih3 x (fun y hy i hi => hx y (by omega) i hi)

theorem darken_spec (w h : Nat) (o : Mem) :
    (∀ y, y < h → ∀ i, i < 3 * w →
      FrameBuffer.darken w h o (y * (3 * w + FrameBuffer.gap w) + i)
        = byteOf (rd8 o (y * (3 * w + FrameBuffer.gap w) + i) / 4)) ∧
    (∀ x, (∀ y, y < h → ∀ i, i < 3 * w → x ≠ y * (3 * w + FrameBuffer.gap w) + i) →
      FrameBuffer.darken w h o x = o x) :=
  (darkenRow_iterate w h o).2

theorem src_index_lt {w h y i : Nat} (hy : y < h) (hi : i < 3 * w) :
    3 * w * (h - 1 - y) + i < w * h * 3 := by
  obtain ⟨h', rfl⟩ : ∃ h', h = h' + 1 := ⟨h - 1, by omega⟩
  have h1 : 3 * w * (h' + 1 - 1 - y) ≤ 3 * w * h' := Nat.mul_le_mul_left _ (by omega)
  have h2 : w * (h' + 1) * 3 = 3 * w * h' + 3 * w := by ring
  omega

theorem demoRegion_created :
    FrameBuffer.create none allocZero 4 4 0 = (⟨some demoRegion⟩, some demoRegion) := rfl

/-- A store into byte `b` of the header leaves every field that does not contain
byte `b` as it was. -/
theorem fields_of_byte_store (m : Mem) (b v : Nat) :
    (b ≠ 12 → Header.m_is_active (wr8 m b v) = Header.m_is_active m) ∧
    (b ≠ 13 → Header.m_connected (wr8 m b v) = Header.m_connected m) ∧
    (4 ≤ b → Header.m_image_offset (wr8 m b v) = Header.m_image_offset m) ∧
    (b < 4 ∨ 6 ≤ b → Header.m_width (wr8 m b v) = Header.m_width m) ∧
    (b < 6 ∨ 8 ≤ b → Header.m_height (wr8 m b v) = Header.m_height m) ∧
    (b < 8 ∨ 12 ≤ b → Header.m_framerate (wr8 m b v) = Header.m_framerate m) ∧
    (b < 14 ∨ 16 ≤ b → Header.m_unused_field (wr8 m b v) = Header.m_unused_field m) ∧
    (b < 16 ∨ 24 ≤ b → Header.m_frame_counter (wr8 m b v) = Header.m_frame_counter m) := by
  refine ⟨fun h => ?_, fun h => ?_, fun h => ?_, fun h => ?_, fun h => ?_, fun h => ?_,
    fun h => ?_, fun h => ?_⟩
  · unfold Header.m_is_active rd8; rw [wr8_of_ne _ _ (by omega)]
  · unfold Header.m_connected rd8; rw [wr8_of_ne _ _ (by omega)]
  · exact rd32_congr (fun x h1 h2 => wr8_of_ne _ _ (by omega))
  · exact rd16_congr (fun x h1 h2 => wr8_of_ne _ _ (by omega))
  · exact rd16_congr (fun x h1 h2 => wr8_of_ne _ _ (by omega))
  · exact rd32_congr (fun x h1 h2 => wr8_of_ne _ _ (by omega))
  · exact rd16_congr (fun x h1 h2 => wr8_of_ne _ _ (by omega))
  · exact rd64_congr (fun x h1 h2 => wr8_of_ne _ _ (by omega))

theorem wr8_idem (m : Mem) (a v : Nat) : wr8 (wr8 m a v) a v = wr8 m a v := by
  funext x
  simp only [wr8_apply]
  split <;> rfl

/-- The effect of `open` on the named object. -/
theorem open_spec (existing : Option Region) :
    (∀ r', (FrameBuffer.open existing).1.m_shmem = some r' →
      ∃ r, existing = some r ∧ (FrameBuffer.open existing).2 = some r' ∧
        r'.size = r.size ∧
        Header.m_connected r'.mem = 1 ∧
        (∀ a, a ≠ 13 → r'.mem a = r.mem a) ∧
        Header.m_image_offset r'.mem = Header.m_image_offset r.mem ∧
        Header.m_width r'.mem = Header.m_width r.mem ∧
        Header.m_height r'.mem = Header.m_height r.mem ∧
        Header.m_framerate r'.mem = Header.m_framerate r.mem ∧
        Header.m_is_active r'.mem = Header.m_is_active r.mem ∧
        Header.m_unused_field r'.mem = Header.m_unused_field r.mem ∧
        Header.m_frame_counter r'.mem = Header.m_frame_counter r.mem ∧
        (sizeofHeader ≤ r.size ∧
          FrameBuffer.checkDimensions (Header.m_width r.mem) (Header.m_height r.mem) = true ∧
          f32_lt_zero (Header.m_framerate r.mem) = false ∧
          Header.m_image_offset r.mem + Header.m_width r.mem * Header.m_height r.mem * 3
            ≤ r.size) ∧
        r'.mem = Header.set_connected r.mem 1) ∧
    ((FrameBuffer.open existing).1.m_shmem = none →
      (FrameBuffer.open existing).2 = existing) := by
  cases existing with
  | none => exact ⟨fun r' h => absurd h (by simp [open_none]), fun _ => rfl⟩
  | some r =>
    by_cases hc : sizeofHeader ≤ r.size ∧
        FrameBuffer.checkDimensions (Header.m_width r.mem) (Header.m_height r.mem) = true ∧
        f32_lt_zero (Header.m_framerate r.mem) = false ∧
        Header.m_image_offset r.mem + Header.m_width r.mem * Header.m_height r.mem * 3
          ≤ r.size
    · rw [open_eq_of_checks hc]
      refine ⟨fun r' h => ?_, fun h => absurd h (by simp)⟩
      simp only [Option.some.injEq] at h
      subst h
      obtain ⟨g1, -, g3, g4, g5, g6, g7, g8⟩ := fields_of_byte_store r.mem 13 1
      have g3' := g3 (by omega)
      have g4' := g4 (by omega)
      have g5' := g5 (by omega)
      have g6' := g6 (by omega)
      refine ⟨r, rfl, rfl, rfl, ?_, fun a ha => wr8_of_ne _ _ ha, g3', g4', g5', g6',
        g1 (by omega), g7 (by omega), g8 (by omega), hc, rfl⟩
      simp only [Header.m_connected, Header.set_connected, rd8_wr8, if_true]
    · rw [open_eq_of_not_checks hc]
      exact ⟨fun r' h => absurd h (by simp), fun _ => rfl⟩

/-- C9: effect of `open` on the shared region.  When `open` succeeds, the only
change to the region is that `connected` becomes 1: the size and every byte other
than byte 13 are as before, hence `image_offset`, `width`, `height`, `framerate`,
`is_active`, the reserved field, `frame_counter` and the pixel bytes are unchanged;
opening again from another instance succeeds and leaves the region exactly as
after the first `open`.  When `open` rejects the region, the named object is
exactly as before (no byte changed, `connected` not set). -/
theorem open_region_effect (existing : Option Region) :
    (∀ r', (FrameBuffer.open existing).1.m_shmem = some r' →
      ∃ r, existing = some r ∧ (FrameBuffer.open existing).2 = some r' ∧
        r'.size = r.size ∧
        Header.m_connected r'.mem = 1 ∧
        (∀ a, a ≠ 13 → r'.mem a = r.mem a) ∧
        Header.m_image_offset r'.mem = Header.m_image_offset r.mem ∧
        Header.m_width r'.mem = Header.m_width r.mem ∧
        Header.m_height r'.mem = Header.m_height r.mem ∧
        Header.m_framerate r'.mem = Header.m_framerate r.mem ∧
        Header.m_is_active r'.mem = Header.m_is_active r.mem ∧
        Header.m_unused_field r'.mem = Header.m_unused_field r.mem ∧
        Header.m_frame_counter r'.mem = Header.m_frame_counter r.mem ∧
        FrameBuffer.open (some r') = (⟨some r'⟩, some r')) ∧
    ((FrameBuffer.open existing).1.m_shmem = none →
      (FrameBuffer.open existing).2 = existing) := by
  obtain ⟨h1, h2⟩ := open_spec existing
  refine ⟨fun r' ho => ?_, h2⟩
  obtain ⟨r, hr, e2, f1, f2, f3, f4, f5, f6, f7, f8, f9, f10, hc, hmem⟩ := h1 r' ho
  refine ⟨r, hr, e2, f1, f2, f3, f4, f5, f6, f7, f8, f9, f10, ?_⟩
  have hc' : sizeofHeader ≤ r'.size ∧
      FrameBuffer.checkDimensions (Header.m_width r'.mem) (Header.m_height r'.mem) = true ∧
      f32_lt_zero (Header.m_framerate r'.mem) = false ∧
      Header.m_image_offset r'.mem + Header.m_width r'.mem * Header.m_height r'.mem * 3
        ≤ r'.size := by
    rw [f1, f4, f5, f6, f7]
    exact hc
  rw [open_eq_of_checks hc']
  have e : ({ r' with mem := Header.set_connected r'.mem 1 } : Region) = r' := by
    obtain ⟨sz, m⟩ := r'
    simp only at hmem
    subst hmem
    simp only [Header.set_connected, wr8_idem]
  rw [e]

theorem open_region_effect_witness :
    (((FrameBuffer.open (some demoRegion)).1.m_shmem
        = some ⟨72, Header.set_connected demoRegion.mem 1⟩) ∧
      ∃ r, some demoRegion = some r ∧
        (FrameBuffer.open (some demoRegion)).2
          = some ⟨72, Header.set_connected demoRegion.mem 1⟩ ∧
        (72 : Nat) = r.size ∧
        Header.m_connected (Header.set_connected demoRegion.mem 1) = 1 ∧
        (∀ a, a ≠ 13 → Header.set_connected demoRegion.mem 1 a = r.mem a) ∧
        Header.m_image_offset (Header.set_connected demoRegion.mem 1)
          = Header.m_image_offset r.mem ∧
        Header.m_width (Header.set_connected demoRegion.mem 1) = Header.m_width r.mem ∧
        Header.m_height (Header.set_connected demoRegion.mem 1) = Header.m_height r.mem ∧
        Header.m_framerate (Header.set_connected demoRegion.mem 1)
          = Header.m_framerate r.mem ∧
        Header.m_is_active (Header.set_connected demoRegion.mem 1)
          = Header.m_is_active r.mem ∧
        Header.m_unused_field (Header.set_connected demoRegion.mem 1)
          = Header.m_unused_field r.mem ∧
        Header.m_frame_counter (Header.set_connected demoRegion.mem 1)
          = Header.m_frame_counter r.mem ∧
        FrameBuffer.open (some ⟨72, Header.set_connected demoRegion.mem 1⟩)
          = (⟨some ⟨72, Header.set_connected demoRegion.mem 1⟩⟩,
              some ⟨72, Header.set_connected demoRegion.mem 1⟩)) ∧
    ((FrameBuffer.open (some ⟨10, zeroMem⟩)).1.m_shmem = none ∧
      (FrameBuffer.open (some ⟨10, zeroMem⟩)).2 = some ⟨10, zeroMem⟩) :=
  ⟨⟨rfl, (open_region_effect (some demoRegion)).1 _ rfl⟩,
    ⟨rfl, (open_region_effect (some ⟨10, zeroMem⟩)).2 rfl⟩⟩

theorem deactivate_effect (fb : FrameBuffer) (r : Region) (hlive : fb.m_shmem = some r) :
    ∃ r', fb.deactivate.m_shmem = some r' ∧ r'.size = r.size ∧
      Header.m_is_active r'.mem = 0 ∧
      (∀ a, a ≠ 12 → r'.mem a = r.mem a) ∧
      Header.m_image_offset r'.mem = Header.m_image_offset r.mem ∧
      Header.m_width r'.mem = Header.m_width r.mem ∧
      Header.m_height r'.mem = Header.m_height r.mem ∧
      Header.m_framerate r'.mem = Header.m_framerate r.mem ∧
      Header.m_connected r'.mem = Header.m_connected r.mem ∧
      Header.m_unused_field r'.mem = Header.m_unused_field r.mem ∧
      Header.m_frame_counter r'.mem = Header.m_frame_counter r.mem ∧
      fb.deactivate.deactivate = fb.deactivate := by
  obtain ⟨s0⟩ := fb
  simp only at hlive
  subst hlive
  obtain ⟨-, g2, g3, g4, g5, g6, g7, g8⟩ := fields_of_byte_store r.mem 12 0
  refine ⟨⟨r.size, Header.set_is_active r.mem 0⟩, rfl, rfl, ?_, fun a ha => wr8_of_ne _ _ ha,
    g3 (by omega), g4 (by omega), g5 (by omega), g6 (by omega), g2 (by omega), g7 (by omega),
    g8 (by omega), ?_⟩
  · simp only [Header.m_is_active, Header.set_is_active, rd8_wr8, if_true]
  · simp only [FrameBuffer.deactivate, Header.set_is_active, wr8_idem]

/-! ## Invariants of a region shared by several channels -/

theorem view_of_live {s : Sys} {i : Nat} (h : s.live.getD i false = true) :
    s.view i = ⟨some s.shared⟩ := by
  unfold Sys.view; rw [if_pos h]

theorem view_of_not_live {s : Sys} {i : Nat} (h : ¬ s.live.getD i false = true) :
    s.view i = ⟨none⟩ := by
  unfold Sys.view; rw [if_neg h]

/-- What one call does to the header of a region whose `image_offset` is the
header size. -/
theorem step_header (s : Sys) (op : Op)
    (hinv : Header.m_image_offset s.shared.mem = sizeofHeader) :
    (s.step op).shared.size = s.shared.size ∧
    Header.m_image_offset (s.step op).shared.mem = sizeofHeader ∧
    Header.m_width (s.step op).shared.mem = Header.m_width s.shared.mem ∧
    Header.m_height (s.step op).shared.mem = Header.m_height s.shared.mem ∧
    Header.m_framerate (s.step op).shared.mem = Header.m_framerate s.shared.mem ∧
    Header.m_frame_counter (s.step op).shared.mem =
      (if s.isLiveWrite op = true then (Header.m_frame_counter s.shared.mem + 1) % 2 ^ 64
        else Header.m_frame_counter s.shared.mem) ∧
    (Header.m_is_active s.shared.mem = 0 → Header.m_is_active (s.step op).shared.mem = 0) ∧
    (Header.m_connected s.shared.mem = 1 → Header.m_connected (s.step op).shared.mem = 1) ∧
    (Header.m_connected s.shared.mem ≠ 0 →
      Header.m_connected (s.step op).shared.mem ≠ 0) := by
  have hsame : ∀ s' : Sys, s'.shared = s.shared →
      s'.shared.size = s.shared.size ∧
      Header.m_image_offset s'.shared.mem = sizeofHeader ∧
      Header.m_width s'.shared.mem = Header.m_width s.shared.mem ∧
      Header.m_height s'.shared.mem = Header.m_height s.shared.mem ∧
      Header.m_framerate s'.shared.mem = Header.m_framerate s.shared.mem ∧
      Header.m_frame_counter s'.shared.mem = Header.m_frame_counter s.shared.mem ∧
      (Header.m_is_active s.shared.mem = 0 → Header.m_is_active s'.shared.mem = 0) ∧
      (Header.m_connected s.shared.mem = 1 → Header.m_connected s'.shared.mem = 1) ∧
      (Header.m_connected s.shared.mem ≠ 0 → Header.m_connected s'.shared.mem ≠ 0) := by
    intro s' e
    rw [e]
    exact ⟨rfl, hinv, rfl, rfl, rfl, rfl, id, id, id⟩
  cases op with
  | «open» =>
    simp only [Sys.isLiveWrite, Bool.false_eq_true, if_false]
    obtain ⟨h1, h2⟩ := open_spec s.named
    cases ho : (FrameBuffer.open s.named).1.m_shmem with
    | none =>
      have e2 := h2 ho
      apply hsame
      simp only [Sys.step, e2]
      unfold Sys.named
      split <;> rfl
    | some r' =>
      obtain ⟨r, hr, e2, f1, f2, -, f4, f5, f6, f7, f8, -, f10, -, -⟩ := h1 r' ho
      have hrs : r = s.shared := by
        unfold Sys.named at hr
        split at hr
        · exact (Option.some.inj hr).symm
        · exact absurd hr (by simp)
      subst hrs
      simp only [Sys.step, e2, Option.getD_some]
      refine ⟨f1, by rw [f4]; exact hinv, f5, f6, f7, f10, fun h => by rw [f8]; exact h,
        fun _ => f2, fun _ => by rw [f2]; decide⟩
  | query i =>
    simp only [Sys.isLiveWrite, Bool.false_eq_true, if_false]
    exact hsame _ rfl
  | transferToDIB i b =>
    simp only [Sys.isLiveWrite, Bool.false_eq_true, if_false]
    exact hsame _ rfl
  | waitForNewFrame i c t =>
    simp only [Sys.isLiveWrite, Bool.false_eq_true, if_false]
    exact hsame _ rfl
  | release i =>
    simp only [Sys.isLiveWrite, Bool.false_eq_true, if_false]
    exact hsame _ rfl
  | write i image_bits =>
    by_cases hl : s.live.getD i false = true
    · obtain ⟨r', e, f1, -, f3, f4, f5, f6, f7, f8, f9, -⟩ :=
        write_spec (s.view i) s.shared image_bits (by rw [view_of_live hl])
          (by rw [hinv])
      simp only [Sys.step, e, Option.getD_some, Sys.isLiveWrite, hl, if_true]
      refine ⟨f1, by rw [f4]; exact hinv, f5, f6, f7, f3, fun h => by rw [f8]; exact h,
        fun h => by rw [f9]; exact h, fun h => by rw [f9]; exact h⟩
    · have e : (s.step (Op.write i image_bits)).shared = s.shared := by
        simp only [Sys.step, view_of_not_live hl, FrameBuffer.write, Option.getD_none]
      have hw : s.isLiveWrite (Op.write i image_bits) = false := by
        simpa [Sys.isLiveWrite] using hl
      rw [hw]
      simp only [Bool.false_eq_true, if_false]
      exact hsame _ e
  | deactivate i =>
    simp only [Sys.isLiveWrite, Bool.false_eq_true, if_false]
    by_cases hl : s.live.getD i false = true
    · obtain ⟨r', e, f1, f2, -, f4, f5, f6, f7, f8, -, f10, -⟩ :=
        deactivate_effect (s.view i) s.shared (by rw [view_of_live hl])
      simp only [Sys.step, e, Option.getD_some]
      refine ⟨f1, by rw [f4]; exact hinv, f5, f6, f7, f10, fun _ => f2,
        fun h => by rw [f8]; exact h, fun h => by rw [f8]; exact h⟩
    · apply hsame
      simp only [Sys.step, view_of_not_live hl, FrameBuffer.deactivate, Option.getD_none]

theorem run_append (s : Sys) (ops1 ops2 : List Op) :
    s.run (ops1 ++ ops2) = (s.run ops1).run ops2 := by
  induction ops1 generalizing s with
  | nil => rfl
  | cons op ops ih => exact ih (s.step op)

theorem writesDone_append (s : Sys) (ops1 ops2 : List Op) :
    s.writesDone (ops1 ++ ops2) = s.writesDone ops1 + (s.run ops1).writesDone ops2 := by
  induction ops1 generalizing s with
  | nil => simp [Sys.writesDone, Sys.run]
  | cons op ops ih =>
    show (if s.isLiveWrite op = true then 1 else 0) + (s.step op).writesDone (ops ++ ops2)
      = (if s.isLiveWrite op = true then 1 else 0) + (s.step op).writesDone ops
        + ((s.step op).run ops).writesDone ops2
    rw [ih (s.step op)]
    omega

/-- What a finite sequence of calls does to the header of a region whose
`image_offset` is the header size. -/
theorem run_header (s : Sys) (ops : List Op)
    (hinv : Header.m_image_offset s.shared.mem = sizeofHeader) :
    (s.run ops).shared.size = s.shared.size ∧
    Header.m_image_offset (s.run ops).shared.mem = sizeofHeader ∧
    Header.m_width (s.run ops).shared.mem = Header.m_width s.shared.mem ∧
    Header.m_height (s.run ops).shared.mem = Header.m_height s.shared.mem ∧
    Header.m_framerate (s.run ops).shared.mem = Header.m_framerate s.shared.mem ∧
    Header.m_frame_counter (s.run ops).shared.mem =
      (Header.m_frame_counter s.shared.mem + s.writesDone ops) % 2 ^ 64 ∧
    (Header.m_is_active s.shared.mem = 0 → Header.m_is_active (s.run ops).shared.mem = 0) ∧
    (Header.m_connected s.shared.mem = 1 → Header.m_connected (s.run ops).shared.mem = 1) ∧
    (Header.m_connected s.shared.mem ≠ 0 →
      Header.m_connected (s.run ops).shared.mem ≠ 0) := by
  induction ops generalizing s with
  | nil =>
    have hb := rd64_lt s.shared.mem 16
    refine ⟨rfl, hinv, rfl, rfl, rfl, ?_, id, id, id⟩
    simp only [Sys.run, Sys.writesDone, Header.m_frame_counter]
    omega
  | cons op ops ih =>
    obtain ⟨a1, a2, a3, a4, a5, a6, a7, a8, a9⟩ := step_header s op hinv
    obtain ⟨b1, b2, b3, b4, b5, b6, b7, b8, b9⟩ := ih (s.step op) a2
    simp only [Sys.run, Sys.writesDone]
    refine ⟨b1.trans a1, b2, b3.trans a3, b4.trans a4, b5.trans a5, ?_,
      fun h => b7 (a7 h), fun h => b8 (a8 h), fun h => b9 (a9 h)⟩
    rw [b6, a6]
    have hb := rd64_lt s.shared.mem 16
    simp only [Header.m_frame_counter] at hb ⊢
    split <;> omega

theorem created_region {existing : Option Region} {alloc : Nat → Option Region}
    {width height : Int} {framerate : Nat} {r0 : Region}
    (hc : (FrameBuffer.create existing alloc width height framerate).1.m_shmem = some r0) :
    Header.m_image_offset r0.mem = sizeofHeader ∧ Header.m_frame_counter r0.mem = 0 ∧
    Header.m_is_active r0.mem = 1 ∧ Header.m_connected r0.mem = 0 := by
  have hs : (FrameBuffer.create existing alloc width height framerate).1.m_shmem.isSome
      = true := by rw [hc]; rfl
  obtain ⟨-, -, r, -, he⟩ := create_live_inv hs
  rw [he] at hc
  simp only [Option.some.injEq] at hc
  subst hc
  obtain ⟨f1, -, -, -, f5, f6, f7⟩ := initHeader_fields r.mem width height framerate
  exact ⟨f1, f7, f5, f6⟩

/-- C8: counter invariant.  For every region initialised by a successful `create`
and every finite sequence of calls made on it by the producer and by any number of
instances attached with `open` (`open`, the queries, `write`, `deactivate`,
`transferToDIB`, `waitForNewFrame`, `release`), `frameCounter()` read through any
instance that holds the region is the number `N` of `write` calls carried out on
the region so far, modulo `2^64` (so exactly `N` for `N < 2^64`); a `write` on an
instance holding the region is the only call that changes `frame_counter`, and it
adds 1; so below `2^64` the counter never decreases. -/
theorem frameCounter_counts (existing : Option Region) (alloc : Nat → Option Region)
    (width height : Int) (framerate : Nat) (r0 : Region)
    (hc : (FrameBuffer.create existing alloc width height framerate).1.m_shmem = some r0)
    (ops : List Op) :
    (∀ i, ((Sys.init r0).run ops).live.getD i false = true →
      (((Sys.init r0).run ops).view i).frameCounter
        = (Sys.init r0).writesDone ops % 2 ^ 64) ∧
    ((Sys.init r0).writesDone ops < 2 ^ 64 →
      ∀ i, ((Sys.init r0).run ops).live.getD i false = true →
        (((Sys.init r0).run ops).view i).frameCounter = (Sys.init r0).writesDone ops) ∧
    (∀ op, Header.m_frame_counter (((Sys.init r0).run ops).step op).shared.mem =
      (if ((Sys.init r0).run ops).isLiveWrite op = true then
        (Header.m_frame_counter ((Sys.init r0).run ops).shared.mem + 1) % 2 ^ 64
      else Header.m_frame_counter ((Sys.init r0).run ops).shared.mem)) ∧
    (∀ more, (Sys.init r0).writesDone (ops ++ more) < 2 ^ 64 →
      Header.m_frame_counter ((Sys.init r0).run ops).shared.mem
        ≤ Header.m_frame_counter ((Sys.init r0).run (ops ++ more)).shared.mem) := by
  obtain ⟨hoff, hzero, -, -⟩ := created_region hc
  have hrun : ∀ l, Header.m_frame_counter ((Sys.init r0).run l).shared.mem
      = (Sys.init r0).writesDone l % 2 ^ 64 := by
    intro l
    have h6 := (run_header (Sys.init r0) l hoff).2.2.2.2.2.1
    rw [h6]
    show (Header.m_frame_counter r0.mem + _) % 2 ^ 64 = _
    rw [hzero, Nat.zero_add]
  have hview : ∀ i, ((Sys.init r0).run ops).live.getD i false = true →
      (((Sys.init r0).run ops).view i).frameCounter
        = (Sys.init r0).writesDone ops % 2 ^ 64 := by
    intro i hi
    rw [view_of_live hi]
    exact hrun ops
  refine ⟨hview, fun hN i hi => ?_, fun op => ?_, fun more hN => ?_⟩
  · rw [hview i hi]; exact Nat.mod_eq_of_lt hN
  · exact (step_header _ op (run_header (Sys.init r0) ops hoff).2.1).2.2.2.2.2.1
  · rw [hrun ops, hrun (ops ++ more), writesDone_append] at *
    rw [Nat.mod_eq_of_lt (by omega), Nat.mod_eq_of_lt hN]
    omega

theorem frameCounter_counts_witness :
    (FrameBuffer.create none allocZero 4 4 0).1.m_shmem = some demoRegion ∧
    (Sys.init demoRegion).writesDone demoOps = 2 ∧
    ((Sys.init demoRegion).run demoOps).live = [false, true] ∧
    (((Sys.init demoRegion).run demoOps).live.getD 1 false = true →
      (((Sys.init demoRegion).run demoOps).view 1).frameCounter
        = (Sys.init demoRegion).writesDone demoOps % 2 ^ 64) ∧
    (((Sys.init demoRegion).run demoOps).view 1).frameCounter = 2 :=
  have t := frameCounter_counts none allocZero 4 4 0 demoRegion rfl demoOps
  ⟨rfl, rfl, rfl, t.1 1, t.2.1 (by decide) 1 rfl⟩

/-- C10: one-way flags.  On a live channel `deactivate()` sets `is_active` to 0 and
changes nothing else: the size and every byte other than byte 12 are as before, so
every other header field and the pixel bytes are unchanged, and a second call
changes nothing.  For every region initialised by `create` and every finite
sequence of `open`, `write`, `deactivate`, `transferToDIB`, query,
`waitForNewFrame` and `release` calls on it: once `is_active` is 0 it stays 0, and
once `connected` is 1 it stays 1 (in particular it is not 0 again). -/
theorem one_way_flags (fb : FrameBuffer) (r : Region) (hlive : fb.m_shmem = some r)
    (existing : Option Region) (alloc : Nat → Option Region)
    (width height : Int) (framerate : Nat) (r0 : Region)
    (hc : (FrameBuffer.create existing alloc width height framerate).1.m_shmem = some r0)
    (ops more : List Op) :
    (∃ r', fb.deactivate.m_shmem = some r' ∧ r'.size = r.size ∧
      Header.m_is_active r'.mem = 0 ∧
      (∀ a, a ≠ 12 → r'.mem a = r.mem a) ∧
      Header.m_image_offset r'.mem = Header.m_image_offset r.mem ∧
      Header.m_width r'.mem = Header.m_width r.mem ∧
      Header.m_height r'.mem = Header.m_height r.mem ∧
      Header.m_framerate r'.mem = Header.m_framerate r.mem ∧
      Header.m_connected r'.mem = Header.m_connected r.mem ∧
      Header.m_unused_field r'.mem = Header.m_unused_field r.mem ∧
      Header.m_frame_counter r'.mem = Header.m_frame_counter r.mem ∧
      fb.deactivate.deactivate = fb.deactivate) ∧
    (Header.m_is_active ((Sys.init r0).run ops).shared.mem = 0 →
      Header.m_is_active ((Sys.init r0).run (ops ++ more)).shared.mem = 0) ∧
    (Header.m_connected ((Sys.init r0).run ops).shared.mem = 1 →
      Header.m_connected ((Sys.init r0).run (ops ++ more)).shared.mem = 1) ∧
    (Header.m_connected ((Sys.init r0).run ops).shared.mem ≠ 0 →
      Header.m_connected ((Sys.init r0).run (ops ++ more)).shared.mem ≠ 0) := by
  obtain ⟨hoff, -, -, -⟩ := created_region hc
  have hoff' := (run_header (Sys.init r0) ops hoff).2.1
  obtain ⟨-, -, -, -, -, -, h7, h8, h9⟩ := run_header ((Sys.init r0).run ops) more hoff'
  rw [run_append]
  exact ⟨deactivate_effect fb r hlive, h7, h8, h9⟩

theorem one_way_flags_witness :
    ((⟨some demoRegion⟩ : FrameBuffer).m_shmem = some demoRegion ∧
      (FrameBuffer.create none allocZero 4 4 0).1.m_shmem = some demoRegion) ∧
    (⟨some demoRegion⟩ : FrameBuffer).deactivate.deactivate
      = (⟨some demoRegion⟩ : FrameBuffer).deactivate ∧
    Header.m_is_active ((Sys.init demoRegion).run [Op.open, Op.deactivate 1]).shared.mem = 0 ∧
    Header.m_is_active
      ((Sys.init demoRegion).run ([Op.open, Op.deactivate 1] ++ demoOps)).shared.mem = 0 ∧
    Header.m_connected ((Sys.init demoRegion).run [Op.open, Op.deactivate 1]).shared.mem = 1 ∧
    Header.m_connected
      ((Sys.init demoRegion).run ([Op.open, Op.deactivate 1] ++ demoOps)).shared.mem = 1 :=
  have t := one_way_flags ⟨some demoRegion⟩ demoRegion rfl none allocZero 4 4 0 demoRegion rfl
    [Op.open, Op.deactivate 1] demoOps
  have h1 : Header.m_is_active
      ((Sys.init demoRegion).run [Op.open, Op.deactivate 1]).shared.mem = 0 := by decide
  have h2 : Header.m_connected
      ((Sys.init demoRegion).run [Op.open, Op.deactivate 1]).shared.mem = 1 := by decide
  match t.1 with
  | ⟨_, _, _, _, _, _, _, _, _, _, _, _, hidem⟩ =>
    ⟨⟨rfl, rfl⟩, hidem, h1, t.2.1 h1, h2, t.2.2.1 h2⟩

/-! ## Channels without a region -/

theorem step_of_not_live (s : Sys) (i : Nat) (h : s.live.getD i false = false)
    (image_bits : Mem) :
    s.step (Op.write i image_bits) = s ∧ s.step (Op.deactivate i) = s := by
  have hn : ¬ s.live.getD i false = true := by rw [h]; decide
  obtain ⟨shared, live⟩ := s
  constructor
  · simp only [Sys.step, view_of_not_live hn, FrameBuffer.write, Option.getD_none]
  · simp only [Sys.step, view_of_not_live hn, FrameBuffer.deactivate, Option.getD_none]

/-- C11: null-channel degradation.  For every channel that holds no region (as
returned by a failed `create` or `open`, or left by `release()`), `width()`,
`height()` and `frameCounter()` return 0, `framerate()` returns `0.0f`, `active()`
and `connected()` return false; `write`, `deactivate` and `waitForNewFrame` return
without changing anything (the last one without a single sleep), and
`transferToDIB` stores 0 in the observed counter and leaves the output buffer as
it is.  In a system of instances, such calls leave the shared region and all
instances as they are, and `release()` changes no byte of the shared region. -/
theorem null_channel_degrades (fb : FrameBuffer) (h : fb.m_shmem = none) :
    fb.width = 0 ∧ fb.height = 0 ∧ fb.frameCounter = 0 ∧ fb.framerate = 0 ∧
    fb.active = false ∧ fb.connected = false ∧
    (∀ image_bits : Mem, fb.write image_bits = fb) ∧
    fb.deactivate = fb ∧
    (∀ frame_counter time_out polls fuel,
      fb.waitForNewFrame frame_counter time_out polls fuel
        = some ⟨0, WaitExit.noRegion⟩) ∧
    (∀ image_bits : Mem, fb.transferToDIB image_bits = (image_bits, 0)) ∧
    (∀ g : FrameBuffer, g.release.m_shmem = none) ∧
    (∀ (s : Sys) (i : Nat), s.live.getD i false = false →
      ∀ (image_bits : Mem) (frame_counter time_out : Nat),
        s.step (Op.write i image_bits) = s ∧ s.step (Op.deactivate i) = s ∧
        s.step (Op.waitForNewFrame i frame_counter time_out) = s ∧
        s.step (Op.transferToDIB i image_bits) = s ∧ s.step (Op.query i) = s) ∧
    (∀ (s : Sys) (i : Nat), (s.step (Op.release i)).shared = s.shared) := by
  obtain ⟨m⟩ := fb
  simp only at h
  subst h
  refine ⟨rfl, rfl, rfl, rfl, rfl, rfl, fun _ => rfl, rfl, fun _ _ _ _ => rfl, fun _ => rfl,
    fun _ => rfl, fun s i hi image_bits _ _ => ?_, fun _ _ => rfl⟩
  obtain ⟨h1, h2⟩ := step_of_not_live s i hi image_bits
  exact ⟨h1, h2, rfl, rfl, rfl⟩

theorem null_channel_degrades_witness :
    (FrameBuffer.create none allocZero 0 4 0).1.m_shmem = none ∧
    (FrameBuffer.create none allocZero 0 4 0).1.width = 0 ∧
    (FrameBuffer.create none allocZero 0 4 0).1.active = false ∧
    (FrameBuffer.create none allocZero 0 4 0).1.write frame200
      = (FrameBuffer.create none allocZero 0 4 0).1 ∧
    (FrameBuffer.create none allocZero 0 4 0).1.transferToDIB frame200 = (frame200, 0) :=
  have t := null_channel_degrades (FrameBuffer.create none allocZero 0 4 0).1 rfl
  ⟨rfl, t.1, t.2.2.2.2.1, t.2.2.2.2.2.2.1 frame200, t.2.2.2.2.2.2.2.2.2.1 frame200⟩

/-! ## A second producer -/

/-- C12: second producer.  When an object with the shared-memory name already
exists, a further `create`, whatever its arguments, returns a null channel and
leaves the named object exactly as it is: no byte of the existing region changes,
so the first channel, which holds that region, reads the same width, height,
framerate, flags, counter and pixel data as before and stays live. -/
theorem second_create_fails (r : Region) (alloc : Nat → Option Region)
    (width height : Int) (framerate : Nat) :
    (∀ size, SharedMemory.create (some r) alloc size = none) ∧
    (FrameBuffer.create (some r) alloc width height framerate).1.m_shmem = none ∧
    (FrameBuffer.create (some r) alloc width height framerate).2 = some r ∧
    (∀ first : FrameBuffer, first.m_shmem = some r →
      first.m_shmem = (FrameBuffer.create (some r) alloc width height framerate).2) := by
  have hs : ∀ size, SharedMemory.create (some r) alloc size = none := by
    intro size
    unfold SharedMemory.create
    split <;> rfl
  have hc : FrameBuffer.create (some r) alloc width height framerate = (⟨none⟩, some r) := by
    unfold FrameBuffer.create
    split
    · rfl
    · split
      · rfl
      · simp only [hs]
  rw [hc]
  exact ⟨hs, rfl, rfl, fun _ h => h⟩

/-! ## The reserved field -/

/-- C14, as amended: `create` does not write the reserved field.  After a
successful `create` the two bytes of `m_unused_field` are the bytes that the
freshly allocated region held there, so the field is zero exactly when the
operating system delivered it as zero. -/
theorem create_keeps_unused_field (existing : Option Region) (alloc : Nat → Option Region)
    (width height : Int) (framerate : Nat) (r : Region)
    (hc : (FrameBuffer.create existing alloc width height framerate).1.m_shmem = some r) :
    ∃ r0, alloc (24 + width.toNat * height.toNat * 3) = some r0 ∧
      r.mem 14 = r0.mem 14 ∧ r.mem 15 = r0.mem 15 ∧
      Header.m_unused_field r.mem = Header.m_unused_field r0.mem ∧
      (Header.m_unused_field r.mem = 0 ↔ Header.m_unused_field r0.mem = 0) := by
  have hs : (FrameBuffer.create existing alloc width height framerate).1.m_shmem.isSome
      = true := by rw [hc]; rfl
  obtain ⟨-, -, r0, hcr, he⟩ := create_live_inv hs
  rw [he] at hc
  simp only [Option.some.injEq] at hc
  subst hc
  have e14 := initHeader_of_out r0.mem width height framerate (x := 14) (by omega)
  have e15 := initHeader_of_out r0.mem width height framerate (x := 15) (by omega)
  have eu : Header.m_unused_field (FrameBuffer.initHeader r0.mem width height framerate)
      = Header.m_unused_field r0.mem :=
    rd16_congr (fun x h1 h2 => initHeader_of_out _ _ _ _ (by omega))
  exact ⟨r0, (sharedMemory_create_some hcr).2.1, e14, e15, eu, by rw [eu]⟩

theorem create_keeps_unused_field_witness :
    (FrameBuffer.create none allocZero 4 4 0).1.m_shmem = some demoRegion ∧
    ∃ r0, allocZero (24 + (4 : Int).toNat * (4 : Int).toNat * 3) = some r0 ∧
      demoRegion.mem 14 = r0.mem 14 ∧ demoRegion.mem 15 = r0.mem 15 ∧
      Header.m_unused_field demoRegion.mem = Header.m_unused_field r0.mem ∧
      (Header.m_unused_field demoRegion.mem = 0 ↔ Header.m_unused_field r0.mem = 0) :=
  ⟨rfl, create_keeps_unused_field none allocZero 4 4 0 demoRegion rfl⟩

/-- C14, as stated, fails when the fresh mapping is not zero-filled: with a mapping
filled with `0xFF`, `create(4, 4, 0.0f)` succeeds and writes every other field,
and the reserved field reads `0xFFFF`. -/
theorem create_keeps_unused_field_counterexample :
    (FrameBuffer.create none allocDirty 4 4 0).1.m_shmem.isSome = true ∧
    (FrameBuffer.create none allocDirty 4 4 0).1.width = 4 ∧
    (FrameBuffer.create none allocDirty 4 4 0).1.frameCounter = 0 ∧
    (FrameBuffer.create none allocDirty 4 4 0).1.connected = false ∧
    ((FrameBuffer.create none allocDirty 4 4 0).1.m_shmem.map
      (fun r => Header.m_unused_field r.mem)) = some 65535 ∧
    ((FrameBuffer.create none allocDirty 4 4 0).1.m_shmem.map
      (fun r => Header.m_unused_field r.mem)) ≠ some 0 := by
  refine ⟨by decide, by decide, by decide, by decide, by decide, by decide⟩

/-! ## Sizes, offsets and bounds -/

/-- C17: no wrap-around in the size arithmetic.  For every width and height accepted
by `checkDimensions`, `width*height*3 ≤ 805306368`; hence `calcMemorySize` is
`24 + width*height*3` with no reduction modulo `2^32` taking effect, the `uint32_t`
value `image_size` of `open` is `width*height*3` exactly, and the `int` products
`3*width*height` of `write` and `3*w*(h-1-y)` of `transferToDIB` are below `2^31`. -/
theorem no_wraparound (w h : Nat)
    (hd : FrameBuffer.checkDimensions (w : Int) (h : Int) = true) :
    w * h * 3 ≤ 805306368 ∧
    FrameBuffer.calcMemorySize w h = 24 + w * h * 3 ∧
    24 + w * h * 3 < 2 ^ 32 ∧
    ((w % 2 ^ 32) * (h % 2 ^ 32) % 2 ^ 32) * 3 % 2 ^ 32 = w * h * 3 ∧
    3 * w * h < 2 ^ 31 ∧
    (∀ y, y < h → 3 * w * (h - 1 - y) < 2 ^ 31) ∧
    FrameBuffer.toUInt16 (w : Int) = w ∧ FrameBuffer.toUInt16 (h : Int) = h := by
  obtain ⟨⟨hw1, hw2, -⟩, ⟨hh1, hh2, -⟩⟩ := checkDimensions_nat hd
  have hp := mul_le_sq hw2 hh2
  have e3 : 3 * w * h = w * h * 3 := by ring
  have ew : w % 2 ^ 32 = w := Nat.mod_eq_of_lt (by omega)
  have eh : h % 2 ^ 32 = h := Nat.mod_eq_of_lt (by omega)
  refine ⟨by omega, calcMemorySize_eq hw2 hh2, by omega, ?_, by omega, fun y hy => ?_, ?_, ?_⟩
  · rw [ew, eh]
    generalize w * h = p at *
    omega
  · have h1 : 3 * w * (h - 1 - y) ≤ 3 * w * h := Nat.mul_le_mul_left _ (by omega)
    omega
  · unfold FrameBuffer.toUInt16; omega
  · unfold FrameBuffer.toUInt16; omega

theorem no_wraparound_witness :
    FrameBuffer.checkDimensions ((16384 : Nat) : Int) ((16384 : Nat) : Int) = true ∧
    16384 * 16384 * 3 ≤ 805306368 ∧
    FrameBuffer.calcMemorySize 16384 16384 = 24 + 16384 * 16384 * 3 ∧
    24 + 16384 * 16384 * 3 < 2 ^ 32 ∧
    ((16384 % 2 ^ 32) * (16384 % 2 ^ 32) % 2 ^ 32) * 3 % 2 ^ 32 = 16384 * 16384 * 3 ∧
    3 * 16384 * 16384 < 2 ^ 31 :=
  have t := no_wraparound 16384 16384 (by decide)
  ⟨by decide, t.1, t.2.1, t.2.2.1, t.2.2.2.1, t.2.2.2.2.1⟩

/-- The bound established by the checks of `open`. -/
theorem open_live_bound {existing : Option Region} {r : Region}
    (h : (FrameBuffer.open existing).1.m_shmem = some r) :
    FrameBuffer.checkDimensions (Header.m_width r.mem) (Header.m_height r.mem) = true ∧
    Header.m_image_offset r.mem + Header.m_width r.mem * Header.m_height r.mem * 3
      ≤ r.size := by
  obtain ⟨r0, -, -, f1, -, -, f4, f5, f6, -, -, -, -, hc, -⟩ := (open_spec existing).1 r h
  rw [f1, f4, f5, f6]
  exact ⟨hc.2.1, hc.2.2.2⟩

/-- The bound established by a successful `create`. -/
theorem create_live_bound {existing : Option Region} {alloc : Nat → Option Region}
    {width height : Int} {framerate : Nat} {r : Region}
    (h : (FrameBuffer.create existing alloc width height framerate).1.m_shmem = some r) :
    FrameBuffer.checkDimensions (Header.m_width r.mem) (Header.m_height r.mem) = true ∧
    Header.m_image_offset r.mem + Header.m_width r.mem * Header.m_height r.mem * 3
      ≤ r.size := by
  have hs : (FrameBuffer.create existing alloc width height framerate).1.m_shmem.isSome
      = true := by rw [h]; rfl
  obtain ⟨hd, -, r0, hcr, he⟩ := create_live_inv hs
  rw [he] at h
  simp only [Option.some.injEq] at h
  subst h
  obtain ⟨⟨hw1, hw2, -⟩, ⟨hh1, hh2, -⟩⟩ := (checkDimensions_iff _ _).1 hd
  obtain ⟨ew, -, -⟩ := toUInt16_of_valid hw1 hw2
  obtain ⟨eh, -, -⟩ := toUInt16_of_valid hh1 hh2
  obtain ⟨f1, f2, f3, -, -, -, -⟩ := initHeader_fields r0.mem width height framerate
  have hsize := (sharedMemory_create_some hcr).2.2.1
  simp only []
  rw [f1, f2, f3, ew, eh]
  refine ⟨hd, ?_⟩
  have e1 : FrameBuffer.toUInt16 width = width.toNat := by omega
  have e2 : FrameBuffer.toUInt16 height = height.toNat := by omega
  rw [e1, e2]
  exact hsize

/-! ## The image offset -/

/-- C15, as amended: on a region initialised by `create` the stored `image_offset`
is exactly the header size, 24, and it stays 24 under every sequence of calls; so
for the producer and for every instance attached to that region the pixel range
starts behind the header, and a `write` leaves `width`, `height`, `is_active` and
`connected` as they are and changes `frame_counter` by its increment only.  `open`
itself puts no lower bound on `image_offset`: what it guarantees is
`image_offset + width*height*3 ≤` mapped size. -/
theorem created_image_offset (existing : Option Region) (alloc : Nat → Option Region)
    (width height : Int) (framerate : Nat) (r0 : Region)
    (hc : (FrameBuffer.create existing alloc width height framerate).1.m_shmem = some r0)
    (ops : List Op) :
    Header.m_image_offset r0.mem = 24 ∧
    Header.m_image_offset ((Sys.init r0).run ops).shared.mem = 24 ∧
    (∀ k, 24 ≤ Header.imageData ((Sys.init r0).run ops).shared.mem + k) ∧
    (∀ i image_bits, ((Sys.init r0).run ops).live.getD i false = true →
      ∃ r', ((((Sys.init r0).run ops).view i).write image_bits).m_shmem = some r' ∧
        Header.m_image_offset r'.mem = 24 ∧
        Header.m_width r'.mem = Header.m_width ((Sys.init r0).run ops).shared.mem ∧
        Header.m_height r'.mem = Header.m_height ((Sys.init r0).run ops).shared.mem ∧
        Header.m_is_active r'.mem = Header.m_is_active ((Sys.init r0).run ops).shared.mem ∧
        Header.m_connected r'.mem = Header.m_connected ((Sys.init r0).run ops).shared.mem ∧
        Header.m_frame_counter r'.mem
          = (Header.m_frame_counter ((Sys.init r0).run ops).shared.mem + 1) % 2 ^ 64) ∧
    (∀ (e : Option Region) (r : Region), (FrameBuffer.open e).1.m_shmem = some r →
      Header.m_image_offset r.mem + Header.m_width r.mem * Header.m_height r.mem * 3
        ≤ r.size) := by
  obtain ⟨hoff, -, -, -⟩ := created_region hc
  have hrun := (run_header (Sys.init r0) ops hoff).2.1
  refine ⟨hoff, hrun, fun k => ?_, fun i image_bits hi => ?_, fun e r h => (open_live_bound h).2⟩
  · unfold Header.imageData
    rw [hrun]
    unfold sizeofHeader
    omega
  · obtain ⟨r', e, -, -, f3, f4, f5, f6, -, f8, f9, -⟩ :=
      write_spec (((Sys.init r0).run ops).view i) ((Sys.init r0).run ops).shared image_bits
        (by rw [view_of_live hi]) (by rw [hrun])
    exact ⟨r', e, by rw [f4]; exact hrun, f5, f6, f8, f9, f3⟩

theorem created_image_offset_witness :
    (FrameBuffer.create none allocZero 4 4 0).1.m_shmem = some demoRegion ∧
    Header.m_image_offset demoRegion.mem = 24 ∧
    Header.m_image_offset ((Sys.init demoRegion).run demoOps).shared.mem = 24 ∧
    (((Sys.init demoRegion).run demoOps).live.getD 1 false = true →
      ∃ r', ((((Sys.init demoRegion).run demoOps).view 1).write frame200).m_shmem = some r' ∧
        Header.m_image_offset r'.mem = 24 ∧
        Header.m_width r'.mem = Header.m_width ((Sys.init demoRegion).run demoOps).shared.mem ∧
        Header.m_height r'.mem
          = Header.m_height ((Sys.init demoRegion).run demoOps).shared.mem ∧
        Header.m_is_active r'.mem
          = Header.m_is_active ((Sys.init demoRegion).run demoOps).shared.mem ∧
        Header.m_connected r'.mem
          = Header.m_connected ((Sys.init demoRegion).run demoOps).shared.mem ∧
        Header.m_frame_counter r'.mem
          = (Header.m_frame_counter ((Sys.init demoRegion).run demoOps).shared.mem + 1)
            % 2 ^ 64) :=
  have t := created_image_offset none allocZero 4 4 0 demoRegion rfl demoOps
  ⟨rfl, t.1, t.2.1, t.2.2.2.1 1 frame200⟩

/-- C15, as stated, fails: `open` accepts `foreignRegion`, whose `image_offset` is 0,
so this live channel has an `image_offset` below the header size; its pixel range
is bytes 0..47 and covers the header, and `write` of a frame of zero bytes alters
`width` (4 to 0), `is_active` and `connected` (true to false) through the pixel
copy. -/
theorem image_offset_counterexample :
    (FrameBuffer.open (some foreignRegion)).1.m_shmem = some foreignOpened ∧
    Header.m_image_offset foreignOpened.mem = 0 ∧
    Header.m_image_offset foreignOpened.mem < sizeofHeader ∧
    (⟨some foreignOpened⟩ : FrameBuffer).width = 4 ∧
    (⟨some foreignOpened⟩ : FrameBuffer).active = true ∧
    (⟨some foreignOpened⟩ : FrameBuffer).connected = true ∧
    ((⟨some foreignOpened⟩ : FrameBuffer).write zeroMem).width = 0 ∧
    ((⟨some foreignOpened⟩ : FrameBuffer).write zeroMem).active = false ∧
    ((⟨some foreignOpened⟩ : FrameBuffer).write zeroMem).connected = false := by
  refine ⟨rfl, by decide, by decide, by decide, by decide, by decide, by decide, by decide,
    by decide⟩

/-! ## Row padding -/

theorem and_mask_eq (x : Nat) (hx : x < 2 ^ 32) : x &&& 0xFFFFFFFC = x / 4 * 4 := by
  have hm : (0xFFFFFFFC : Nat) = (2 ^ 30 - 1) <<< 2 := by decide
  have hd : x / 4 * 4 = (x >>> 2) <<< 2 := by
    rw [Nat.shiftLeft_eq, Nat.shiftRight_eq_div_pow]
  rw [hm, hd]
  apply Nat.eq_of_testBit_eq
  intro i
  rw [Nat.testBit_and, Nat.testBit_shiftLeft, Nat.testBit_shiftLeft, Nat.testBit_shiftRight,
    Nat.testBit_two_pow_sub_one]
  by_cases hi : 2 ≤ i
  · have e : 2 + (i - 2) = i := by omega
    rw [e]
    by_cases h32 : i < 32
    · have h1 : decide (i ≥ 2) = true := by simpa using hi
      have h2 : decide (i - 2 < 30) = true := by simp; omega
      rw [h1, h2]; simp
    · have hxi : x.testBit i = false :=
        Nat.testBit_lt_two_pow (lt_of_lt_of_le hx (Nat.pow_le_pow_right (by decide) (by omega)))
      rw [hxi]; simp
  · have h1 : decide (i ≥ 2) = false := by simpa using hi
    rw [h1]; simp

theorem gap_eq (w : Nat) (hw : w ≤ 65535) :
    FrameBuffer.gap w = round_up4 (3 * w) - 3 * w ∧ 3 * w ≤ round_up4 (3 * w) := by
  unfold FrameBuffer.gap round_up4
  rw [and_mask_eq _ (by omega)]
  have e : w * 3 = 3 * w := by ring
  rw [e]
  omega

/-- The output of `transferToDIB` on a live channel: the bytes of the rows are
determined by the region alone, every other byte of the buffer is kept. -/
theorem transferToDIB_spec (r : Region) (image_bits : Mem) :
    (∀ y, y < Header.m_height r.mem → ∀ i, i < 3 * Header.m_width r.mem →
      (FrameBuffer.transferToDIB ⟨some r⟩ image_bits).1
          (y * (3 * Header.m_width r.mem + FrameBuffer.gap (Header.m_width r.mem)) + i)
        = if Header.m_is_active r.mem = 0 then
            byteOf (rd8 r.mem (Header.m_image_offset r.mem +
              3 * Header.m_width r.mem * (Header.m_height r.mem - 1 - y) + i) / 4)
          else
            r.mem (Header.m_image_offset r.mem +
              3 * Header.m_width r.mem * (Header.m_height r.mem - 1 - y) + i)) ∧
    (∀ x, (∀ y, y < Header.m_height r.mem → ∀ i, i < 3 * Header.m_width r.mem →
        x ≠ y * (3 * Header.m_width r.mem + FrameBuffer.gap (Header.m_width r.mem)) + i) →
      (FrameBuffer.transferToDIB ⟨some r⟩ image_bits).1 x = image_bits x) ∧
    (FrameBuffer.transferToDIB ⟨some r⟩ image_bits).2 = Header.m_frame_counter r.mem := by
  obtain ⟨c1, c2⟩ := copyRows_spec r.mem (Header.m_image_offset r.mem) (Header.m_width r.mem)
    (Header.m_height r.mem) image_bits
  obtain ⟨d1, d2⟩ := darken_spec (Header.m_width r.mem) (Header.m_height r.mem)
    (FrameBuffer.copyRows r.mem (Header.m_image_offset r.mem) (Header.m_width r.mem)
      (Header.m_height r.mem) image_bits).2
  by_cases ha : Header.m_is_active r.mem = 0
  · simp only [FrameBuffer.transferToDIB, Header.imageData, ha, if_true]
    refine ⟨fun y hy i hi => ?_, fun x hx => by rw [d2 x hx, c2 x hx], trivial⟩
    rw [d1 y hy i hi]
    unfold rd8
    rw [c1 y hy i hi]
  · simp only [FrameBuffer.transferToDIB, Header.imageData, ha, if_false]
    exact ⟨c1, c2, trivial⟩

/-- With a row stride of `3*w`, the rows `0..h-1` fill the indices below `w*h*3`. -/
theorem rows_contiguous {w h : Nat} (hw : 0 < w) (x : Nat) :
    x < w * h * 3 ↔ ∃ y, y < h ∧ ∃ i, i < 3 * w ∧ x = y * (3 * w) + i := by
  constructor
  · intro hx
    have h3 : 0 < 3 * w := by omega
    have e : w * h * 3 = h * (3 * w) := by ring
    rw [e] at hx
    refine ⟨x / (3 * w), (Nat.div_lt_iff_lt_mul h3).2 hx, x % (3 * w), Nat.mod_lt _ h3, ?_⟩
    rw [Nat.mul_comm]
    exact (Nat.div_add_mod x (3 * w)).symm
  · rintro ⟨y, hy, i, hi, rfl⟩
    have hlt := row_lt_of_lt (t := 3 * w) hy hi (Nat.le_refl _)
    have e : w * h * 3 = h * (3 * w) := by ring
    rw [e]
    exact hlt

/-- C19, as amended: row padding.  For every width `w` in 0..65535 the value
`gap = ((3*w + 3) & ~3) - 3*w` of `transferToDIB` is `round_up(3*w, 4) - 3*w`, where
`round_up(3*w, 4)` is the least multiple of 4 that is at least `3*w`, and `gap` lies
in 0..3; for every width accepted by `checkDimensions` the gap is 0.  So on every
live channel whose stored width and height pass `checkDimensions` the output
stride is `3*width`, the rows written by `transferToDIB` are exactly the indices
below `width*height*3`, and every byte of the output buffer from `width*height*3`
on is left as it is.  The stored dimensions pass `checkDimensions` at the moment
`create` or `open` makes a channel live, and at all times on a region initialised
by `create`. -/
theorem gap_spec :
    (∀ w, w ≤ 65535 →
      FrameBuffer.gap w = round_up4 (3 * w) - 3 * w ∧
      3 * w ≤ round_up4 (3 * w) ∧ round_up4 (3 * w) % 4 = 0 ∧
      round_up4 (3 * w) < 3 * w + 4 ∧
      FrameBuffer.gap w ≤ 3) ∧
    (∀ w h : Nat, FrameBuffer.checkDimensions (w : Int) (h : Int) = true →
      FrameBuffer.gap w = 0 ∧ 3 * w + FrameBuffer.gap w = 3 * w) ∧
    (∀ (fb : FrameBuffer) (r : Region) (image_bits : Mem), fb.m_shmem = some r →
      FrameBuffer.checkDimensions (Header.m_width r.mem) (Header.m_height r.mem) = true →
      (∀ x, x < Header.m_width r.mem * Header.m_height r.mem * 3 ↔
        ∃ y, y < Header.m_height r.mem ∧ ∃ i, i < 3 * Header.m_width r.mem ∧
          x = y * (3 * Header.m_width r.mem + FrameBuffer.gap (Header.m_width r.mem)) + i) ∧
      (∀ x, Header.m_width r.mem * Header.m_height r.mem * 3 ≤ x →
        (fb.transferToDIB image_bits).1 x = image_bits x) ∧
      (∀ y, y < Header.m_height r.mem → ∀ i, i < 3 * Header.m_width r.mem →
        (fb.transferToDIB image_bits).1 (y * (3 * Header.m_width r.mem) + i)
          = if Header.m_is_active r.mem = 0 then
              byteOf (rd8 r.mem (Header.m_image_offset r.mem +
                3 * Header.m_width r.mem * (Header.m_height r.mem - 1 - y) + i) / 4)
            else
              r.mem (Header.m_image_offset r.mem +
                3 * Header.m_width r.mem * (Header.m_height r.mem - 1 - y) + i))) ∧
    (∀ (existing : Option Region) (alloc : Nat → Option Region) (width height : Int)
        (framerate : Nat),
      (∀ r, (FrameBuffer.create existing alloc width height framerate).1.m_shmem = some r →
        FrameBuffer.checkDimensions (Header.m_width r.mem) (Header.m_height r.mem) = true ∧
        ∀ ops : List Op,
          FrameBuffer.checkDimensions
            (Header.m_width ((Sys.init r).run ops).shared.mem)
            (Header.m_height ((Sys.init r).run ops).shared.mem) = true) ∧
      (∀ r, (FrameBuffer.open existing).1.m_shmem = some r →
        FrameBuffer.checkDimensions (Header.m_width r.mem) (Header.m_height r.mem)
          = true)) := by
  have hgap0 : ∀ w h : Nat, FrameBuffer.checkDimensions (w : Int) (h : Int) = true →
      FrameBuffer.gap w = 0 := by
    intro w h hd
    obtain ⟨⟨hw1, hw2, hw3⟩, -⟩ := checkDimensions_nat hd
    obtain ⟨g1, g2⟩ := gap_eq w (by omega)
    rw [g1]
    unfold round_up4
    omega
  refine ⟨fun w hw => ?_, fun w h hd => ?_, fun fb r image_bits hlive hd => ?_,
    fun existing alloc width height framerate =>
      ⟨fun r h => ⟨(create_live_bound h).1, fun ops => ?_⟩,
        fun r h => (open_live_bound h).1⟩⟩
  rotate_left 3
  · obtain ⟨hoff, -, -, -⟩ := created_region h
    obtain ⟨-, -, g3, g4, -⟩ := run_header (Sys.init r) ops hoff
    rw [g3, g4]
    exact (create_live_bound h).1
  · obtain ⟨g1, g2⟩ := gap_eq w hw
    refine ⟨g1, g2, ?_, ?_, ?_⟩
    · unfold round_up4; omega
    · unfold round_up4; omega
    · rw [g1]; unfold round_up4; omega
  · have := hgap0 w h hd
    omega
  · obtain ⟨m⟩ := fb
    simp only at hlive
    subst hlive
    have hg := hgap0 _ _ hd
    obtain ⟨⟨hw1, -, -⟩, -⟩ := checkDimensions_nat hd
    obtain ⟨t1, t2, -⟩ := transferToDIB_spec r image_bits
    rw [hg] at t1 t2 ⊢
    simp only [Nat.add_zero] at t1 t2 ⊢
    refine ⟨rows_contiguous (by omega), fun x hx => ?_, t1⟩
    apply t2
    intro y hy i hi hxe
    have := (rows_contiguous (h := Header.m_height r.mem) (show 0 < Header.m_width r.mem by
      omega) x).2 ⟨y, hy, i, hi, hxe⟩
    omega

theorem gap_spec_witness :
    ((5 : Nat) ≤ 65535 ∧
      FrameBuffer.checkDimensions ((4 : Nat) : Int) ((4 : Nat) : Int) = true ∧
      (⟨some demoRegion⟩ : FrameBuffer).m_shmem = some demoRegion ∧
      FrameBuffer.checkDimensions (Header.m_width demoRegion.mem)
        (Header.m_height demoRegion.mem) = true) ∧
    (FrameBuffer.gap 5 = round_up4 (3 * 5) - 3 * 5 ∧ FrameBuffer.gap 5 = 1 ∧
      round_up4 (3 * 5) = 16) ∧
    (FrameBuffer.gap 4 = 0 ∧ 3 * 4 + FrameBuffer.gap 4 = 3 * 4) ∧
    (∀ x, Header.m_width demoRegion.mem * Header.m_height demoRegion.mem * 3 ≤ x →
      ((⟨some demoRegion⟩ : FrameBuffer).transferToDIB frame200).1 x = frame200 x) :=
  ⟨⟨by decide, by decide, rfl, by decide⟩,
    ⟨(gap_spec.1 5 (by decide)).1, by decide, by decide⟩,
    gap_spec.2.1 4 4 (by decide),
    (gap_spec.2.2.1 ⟨some demoRegion⟩ demoRegion frame200 rfl (by decide)).2.1⟩

/-- C19, as stated, fails on a live channel whose stored width is not a multiple
of 4.  `open` accepts `foreignRegion` (`image_offset = 0`); `write(widthFiveFrame)`
copies the frame over the header, so that the channel, still live and active, has
width 5 and height 4 (`5*4*3 = 60` bytes, inside the 72 of the mapping).  Then
`gap = 1` and the stride is 16, not 15: `transferToDIB` leaves byte 15 of the output
untouched and writes byte 62, beyond `width*height*3 = 60`. -/
theorem gap_spec_counterexample :
    (FrameBuffer.open (some foreignRegion)).1.m_shmem = some foreignOpened ∧
    ((⟨some foreignOpened⟩ : FrameBuffer).write widthFiveFrame).m_shmem.isSome = true ∧
    ((⟨some foreignOpened⟩ : FrameBuffer).write widthFiveFrame).active = true ∧
    ((⟨some foreignOpened⟩ : FrameBuffer).write widthFiveFrame).width = 5 ∧
    ((⟨some foreignOpened⟩ : FrameBuffer).write widthFiveFrame).height = 4 ∧
    FrameBuffer.gap 5 = 1 ∧
    3 * 5 + FrameBuffer.gap 5 ≠ 3 * 5 ∧
    frame200 15 = 200 ∧
    (((⟨some foreignOpened⟩ : FrameBuffer).write widthFiveFrame).transferToDIB frame200).1 15
      = 200 ∧
    5 * 4 * 3 ≤ 62 ∧
    frame200 62 = 200 ∧
    (((⟨some foreignOpened⟩ : FrameBuffer).write widthFiveFrame).transferToDIB frame200).1 62
      = 0 ∧
    (((⟨some foreignOpened⟩ : FrameBuffer).write widthFiveFrame).transferToDIB frame200).1 62
      ≠ frame200 62 := by
  refine ⟨rfl, by decide, by decide, by decide, by decide, by decide, by decide, by decide,
    by decide, by decide, by decide, by decide, by decide⟩

/-! ## Reading twice -/

/-- C20: reading is free of side effects on the shared region.  `transferToDIB`
stores through the output pointer only; as a call in a system of instances it
leaves the shared region, header and pixel data, and the instances as they are,
whether `is_active` is set or the darkening pass runs.  Hence two consecutive
calls give the same output bytes and the same observed counter: the rows delivered
into any two buffers agree, and a second call into the buffer of the first leaves
that buffer exactly as the first call left it. -/
theorem transferToDIB_repeatable (fb : FrameBuffer) (r : Region) (image_bits other : Mem)
    (hlive : fb.m_shmem = some r) :
    (∀ (s : Sys) (i : Nat), s.step (Op.transferToDIB i image_bits) = s) ∧
    fb.transferToDIB (fb.transferToDIB image_bits).1 = fb.transferToDIB image_bits ∧
    (fb.transferToDIB other).2 = (fb.transferToDIB image_bits).2 ∧
    (∀ y, y < Header.m_height r.mem → ∀ i, i < 3 * Header.m_width r.mem →
      (fb.transferToDIB other).1
          (y * (3 * Header.m_width r.mem + FrameBuffer.gap (Header.m_width r.mem)) + i)
        = (fb.transferToDIB image_bits).1
          (y * (3 * Header.m_width r.mem + FrameBuffer.gap (Header.m_width r.mem)) + i)) := by
  obtain ⟨m⟩ := fb
  simp only at hlive
  subst hlive
  obtain ⟨a1, a2, a3⟩ := transferToDIB_spec r image_bits
  obtain ⟨b1, b2, b3⟩ := transferToDIB_spec r (FrameBuffer.transferToDIB ⟨some r⟩ image_bits).1
  obtain ⟨c1, -, c3⟩ := transferToDIB_spec r other
  refine ⟨fun _ _ => rfl, ?_, by rw [c3, a3], fun y hy i hi => by rw [c1 y hy i hi, a1 y hy i hi]⟩
  apply Prod.ext
  · funext x
    by_cases hx : ∃ y, y < Header.m_height r.mem ∧ ∃ i, i < 3 * Header.m_width r.mem ∧
        x = y * (3 * Header.m_width r.mem + FrameBuffer.gap (Header.m_width r.mem)) + i
    · obtain ⟨y, hy, i, hi, rfl⟩ := hx
      rw [b1 y hy i hi, a1 y hy i hi]
    · have hx' : ∀ y, y < Header.m_height r.mem → ∀ i, i < 3 * Header.m_width r.mem →
          x ≠ y * (3 * Header.m_width r.mem + FrameBuffer.gap (Header.m_width r.mem)) + i :=
        fun y hy i hi he => hx ⟨y, hy, i, hi, he⟩
      rw [b2 x hx']
  · rw [b3, a3]

theorem transferToDIB_repeatable_witness :
    (⟨some demoInactive⟩ : FrameBuffer).m_shmem = some demoInactive ∧
    (⟨some demoInactive⟩ : FrameBuffer).transferToDIB
        ((⟨some demoInactive⟩ : FrameBuffer).transferToDIB zeroMem).1
      = (⟨some demoInactive⟩ : FrameBuffer).transferToDIB zeroMem ∧
    ((⟨some demoInactive⟩ : FrameBuffer).transferToDIB frame200).2
      = ((⟨some demoInactive⟩ : FrameBuffer).transferToDIB zeroMem).2 ∧
    rd8 ((⟨some demoInactive⟩ : FrameBuffer).transferToDIB
        ((⟨some demoInactive⟩ : FrameBuffer).transferToDIB zeroMem).1).1 0 = 50 :=
  have t := transferToDIB_repeatable ⟨some demoInactive⟩ demoInactive zeroMem frame200 rfl
  ⟨rfl, t.2.1, t.2.2.1, by decide⟩

/-! ## The polling loop -/

/-- Every way out of the loop: through the condition, seen false at the evaluation
reached after the counted sleeps, or through the time-out test after the last
sleep; before that the condition held and the time-out test failed. -/
theorem waitLoop_sound (c : Nat) (t : F32) (polls : Nat → Poll) (fuel : Nat) :
    ∀ k res, FrameBuffer.waitLoop c t polls fuel k = some res →
      (res.exit = WaitExit.condition ∧ k ≤ res.sleeps ∧
        ¬ ((polls res.sleeps).active
            && decide ((polls res.sleeps).frameCounter ≤ c)) = true ∧
        ∀ j, k ≤ j → j < res.sleeps →
          ((polls j).active && decide ((polls j).frameCounter ≤ c)) = true ∧
          ¬ (F32.lt (F32.num 0) t && F32.le t (polls j).elapsed) = true) ∨
      (res.exit = WaitExit.timedOut ∧ k + 1 ≤ res.sleeps ∧
        ((polls (res.sleeps - 1)).active
            && decide ((polls (res.sleeps - 1)).frameCounter ≤ c)) = true ∧
        (F32.lt (F32.num 0) t && F32.le t (polls (res.sleeps - 1)).elapsed) = true ∧
        ∀ j, k ≤ j → j + 1 < res.sleeps →
          ((polls j).active && decide ((polls j).frameCounter ≤ c)) = true ∧
          ¬ (F32.lt (F32.num 0) t && F32.le t (polls j).elapsed) = true) := by
  induction fuel with
  | zero => intro k res h; exact absurd h (by simp [FrameBuffer.waitLoop])
  | succ fuel ih =>
    intro k res h
    unfold FrameBuffer.waitLoop at h
    by_cases hp : ((polls k).active && decide ((polls k).frameCounter ≤ c)) = true
    · rw [if_pos hp] at h
      by_cases ht : (F32.lt (F32.num 0) t && F32.le t (polls k).elapsed) = true
      · rw [if_pos ht] at h
        simp only [Option.some.injEq] at h
        subst h
        right
        exact ⟨rfl, Nat.le_refl _, hp, ht, fun j h1 h2 => absurd h2 (by simp only []; omega)⟩
      · rw [if_neg ht] at h
        have hstart : ∀ j, k ≤ j → ¬ k + 1 ≤ j → j = k := fun j h1 h2 => by omega
        rcases ih (k + 1) res h with ⟨e, h1, h2, h3⟩ | ⟨e, h1, h2, h3, h4⟩
        · left
          refine ⟨e, by omega, h2, fun j hj1 hj2 => ?_⟩
          by_cases hjk : k + 1 ≤ j
          · exact h3 j hjk hj2
          · rw [hstart j hj1 hjk]; exact ⟨hp, ht⟩
        · right
          refine ⟨e, by omega, h2, h3, fun j hj1 hj2 => ?_⟩
          by_cases hjk : k + 1 ≤ j
          · exact h4 j hjk hj2
          · rw [hstart j hj1 hjk]; exact ⟨hp, ht⟩
    · rw [if_neg hp] at h
      simp only [Option.some.injEq] at h
      subst h
      left
      exact ⟨rfl, Nat.le_refl _, hp, fun j h1 h2 => absurd h2 (by simp only []; omega)⟩

/-- The loop leaves through the condition at the first evaluation where it is
false, provided the fuel reaches that evaluation. -/
theorem waitLoop_condition (c : Nat) (t : F32) (polls : Nat → Poll) (n : Nat)
    (hn : ¬ ((polls n).active && decide ((polls n).frameCounter ≤ c)) = true) (fuel : Nat) :
    ∀ k, k ≤ n → n - k + 1 ≤ fuel →
      (∀ j, k ≤ j → j < n →
        ((polls j).active && decide ((polls j).frameCounter ≤ c)) = true ∧
        ¬ (F32.lt (F32.num 0) t && F32.le t (polls j).elapsed) = true) →
      FrameBuffer.waitLoop c t polls fuel k = some ⟨n, WaitExit.condition⟩ := by
  induction fuel with
  | zero => intro k _ hf; omega
  | succ fuel ih =>
    intro k hk hf hall
    unfold FrameBuffer.waitLoop
    by_cases hkn : k = n
    · subst hkn
      rw [if_neg hn]
    · obtain ⟨hp, ht⟩ := hall k (Nat.le_refl _) (by omega)
      rw [if_pos hp, if_neg ht]
      exact ih (k + 1) (by omega) (by omega) (fun j h1 h2 => hall j (by omega) h2)

/-- The loop leaves through the time-out test after the first sleep whose reading
passes it, provided the condition holds until then and the fuel reaches it. -/
theorem waitLoop_timedOut (c : Nat) (t : F32) (polls : Nat → Poll) (n : Nat)
    (hp : ((polls n).active && decide ((polls n).frameCounter ≤ c)) = true)
    (ht : (F32.lt (F32.num 0) t && F32.le t (polls n).elapsed) = true) (fuel : Nat) :
    ∀ k, k ≤ n → n - k + 1 ≤ fuel →
      (∀ j, k ≤ j → j < n →
        ((polls j).active && decide ((polls j).frameCounter ≤ c)) = true ∧
        ¬ (F32.lt (F32.num 0) t && F32.le t (polls j).elapsed) = true) →
      FrameBuffer.waitLoop c t polls fuel k = some ⟨n + 1, WaitExit.timedOut⟩ := by
  induction fuel with
  | zero => intro k _ hf; omega
  | succ fuel ih =>
    intro k hk hf hall
    unfold FrameBuffer.waitLoop
    by_cases hkn : k = n
    · subst hkn
      rw [if_pos hp, if_pos ht]
    · obtain ⟨hp', ht'⟩ := hall k (Nat.le_refl _) (by omega)
      rw [if_pos hp', if_neg ht']
      exact ih (k + 1) (by omega) (by omega) (fun j h1 h2 => hall j (by omega) h2)

/-- The loop does not end while the condition holds and the time-out test fails. -/
theorem waitLoop_none (c : Nat) (t : F32) (polls : Nat → Poll) (fuel : Nat) :
    ∀ k,
      (∀ j, k ≤ j → j < k + fuel →
        ((polls j).active && decide ((polls j).frameCounter ≤ c)) = true ∧
        ¬ (F32.lt (F32.num 0) t && F32.le t (polls j).elapsed) = true) →
      FrameBuffer.waitLoop c t polls fuel k = none := by
  induction fuel with
  | zero => intro k _; rfl
  | succ fuel ih =>
    intro k hall
    unfold FrameBuffer.waitLoop
    obtain ⟨hp, ht⟩ := hall k (Nat.le_refl _) (by omega)
    rw [if_pos hp, if_neg ht]
    exact ih (k + 1) (fun j h1 h2 => hall j (by omega) (by omega))

theorem f32_lt_zero_of_le_zero {t : F32} (h : F32.le t (F32.num 0) = true) :
    F32.lt (F32.num 0) t = false := by
  cases t with
  | nan => rfl
  | negInf => rfl
  | posInf => exact absurd h (by simp [F32.le])
  | num q =>
    simp only [F32.le, decide_eq_true_eq] at h
    simp only [F32.lt, decide_eq_false_iff_not, not_lt]
    exact h

theorem pass_iff (p : Poll) (c : Nat) :
    (p.active && decide (p.frameCounter ≤ c)) = true ↔ p.active = true ∧ p.frameCounter ≤ c := by
  simp only [Bool.and_eq_true, decide_eq_true_eq]

theorem not_pass_iff (p : Poll) (c : Nat) :
    ¬ (p.active && decide (p.frameCounter ≤ c)) = true ↔ p.active = false ∨ c < p.frameCounter := by
  rw [pass_iff]
  cases p.active <;> simp

theorem timeout_iff (t e : F32) :
    (F32.lt (F32.num 0) t && F32.le t e) = true ↔ F32.lt (F32.num 0) t = true ∧ F32.le t e = true := by
  simp only [Bool.and_eq_true]

/-- C13: exit condition of `waitForNewFrame(previousCounter, timeout)` on a live
channel, over the sequence of observations of its loop.  It returns without a
further sleep at the first evaluation of the loop condition at which `is_active`
is false or `frame_counter > previousCounter` (at the very first one without any
sleep, whatever the timeout); whenever it returns, the last evaluation saw
`is_active` false, or it saw `frame_counter > previousCounter`, or `timeout > 0`
and the elapsed time read after the last sleep is at least `timeout`; and with
`timeout ≤ 0` it never returns through the time-out test. -/
theorem waitForNewFrame_exit (fb : FrameBuffer) (r : Region) (hlive : fb.m_shmem = some r)
    (c : Nat) (t : F32) (polls : Nat → Poll) :
    (∀ fuel, 1 ≤ fuel → ((polls 0).active = false ∨ c < (polls 0).frameCounter) →
      fb.waitForNewFrame c t polls fuel = some ⟨0, WaitExit.condition⟩) ∧
    (∀ n fuel, n + 1 ≤ fuel →
      (∀ j, j < n → ((polls j).active = true ∧ (polls j).frameCounter ≤ c) ∧
        ¬ (F32.lt (F32.num 0) t = true ∧ F32.le t (polls j).elapsed = true)) →
      ((polls n).active = false ∨ c < (polls n).frameCounter) →
      fb.waitForNewFrame c t polls fuel = some ⟨n, WaitExit.condition⟩) ∧
    (∀ fuel res, fb.waitForNewFrame c t polls fuel = some res →
      (res.exit = WaitExit.condition ∧
        ((polls res.sleeps).active = false ∨ c < (polls res.sleeps).frameCounter)) ∨
      (res.exit = WaitExit.timedOut ∧ 1 ≤ res.sleeps ∧ F32.lt (F32.num 0) t = true ∧
        F32.le t (polls (res.sleeps - 1)).elapsed = true)) ∧
    (F32.le t (F32.num 0) = true →
      ∀ fuel res, fb.waitForNewFrame c t polls fuel = some res →
        res.exit = WaitExit.condition) := by
  obtain ⟨m⟩ := fb
  simp only at hlive
  subst hlive
  have hcond : ∀ n fuel, n + 1 ≤ fuel →
      (∀ j, j < n → ((polls j).active = true ∧ (polls j).frameCounter ≤ c) ∧
        ¬ (F32.lt (F32.num 0) t = true ∧ F32.le t (polls j).elapsed = true)) →
      ((polls n).active = false ∨ c < (polls n).frameCounter) →
      FrameBuffer.waitForNewFrame ⟨some r⟩ c t polls fuel = some ⟨n, WaitExit.condition⟩ := by
    intro n fuel hf hall hn
    show FrameBuffer.waitLoop c t polls fuel 0 = _
    apply waitLoop_condition c t polls n ((not_pass_iff _ _).2 hn) fuel 0 (Nat.zero_le _)
      (by omega)
    intro j _ hj
    obtain ⟨h1, h2⟩ := hall j hj
    exact ⟨(pass_iff _ _).2 h1, fun h => h2 ((timeout_iff _ _).1 h)⟩
  have hsound : ∀ fuel res, FrameBuffer.waitForNewFrame ⟨some r⟩ c t polls fuel = some res →
      (res.exit = WaitExit.condition ∧
        ((polls res.sleeps).active = false ∨ c < (polls res.sleeps).frameCounter)) ∨
      (res.exit = WaitExit.timedOut ∧ 1 ≤ res.sleeps ∧ F32.lt (F32.num 0) t = true ∧
        F32.le t (polls (res.sleeps - 1)).elapsed = true) := by
    intro fuel res h
    rcases waitLoop_sound c t polls fuel 0 res h with ⟨e, -, h2, -⟩ | ⟨e, h1, -, h3, -⟩
    · exact Or.inl ⟨e, (not_pass_iff _ _).1 h2⟩
    · obtain ⟨g1, g2⟩ := (timeout_iff _ _).1 h3
      exact Or.inr ⟨e, by omega, g1, g2⟩
  refine ⟨fun fuel hf h0 => hcond 0 fuel (by omega) (fun j hj => absurd hj (Nat.not_lt_zero j)) h0,
    hcond, hsound, fun hle fuel res h => ?_⟩
  rcases hsound fuel res h with ⟨e, -⟩ | ⟨-, -, g1, -⟩
  · exact e
  · rw [f32_lt_zero_of_le_zero hle] at g1
    exact absurd g1 (by decide)

theorem waitForNewFrame_exit_witness :
    (⟨some demoRegion⟩ : FrameBuffer).m_shmem = some demoRegion ∧
    ((⟨some demoRegion⟩ : FrameBuffer).waitForNewFrame 0 (F32.num 5) arrivingPolls 3
      = some ⟨2, WaitExit.condition⟩) :=
  have t := waitForNewFrame_exit ⟨some demoRegion⟩ demoRegion rfl 0 (F32.num 5) arrivingPolls
  have hall : ∀ j, j < 2 →
      ((arrivingPolls j).active = true ∧ (arrivingPolls j).frameCounter ≤ 0) ∧
      ¬ (F32.lt (F32.num 0) (F32.num 5) = true ∧
        F32.le (F32.num 5) (arrivingPolls j).elapsed = true) := by
    intro j hj
    have hv : halfSecondValues j < 5 := by
      have hj' : (j : ℚ) < 2 := by exact_mod_cast hj
      simp only [halfSecondValues]
      push_cast
      linarith
    refine ⟨⟨rfl, by simp only [arrivingPolls, if_pos hj]; exact Nat.le_refl 0⟩, ?_⟩
    rintro ⟨-, h2⟩
    simp only [arrivingPolls, halfSeconds, F32.le, decide_eq_true_eq] at h2
    linarith
  ⟨rfl, t.2.1 2 3 (by decide) hall (Or.inr (by decide))⟩

/-- Readings that start at `d` or later and grow by at least `d` with every sleep
are at least `(k+1)*d` after the sleep number `k`. -/
theorem elapsed_lower (e : Nat → ℚ) (d : ℚ) (h0 : d ≤ e 0) (hstep : ∀ k, e k + d ≤ e (k + 1))
    (k : Nat) : ((k : ℚ) + 1) * d ≤ e k := by
  induction k with
  | zero => simpa using h0
  | succ k ih =>
    have := hstep k
    push_cast
    linarith

/-- C18: termination of `waitForNewFrame` by the time-out.  On a live channel with
`timeout > 0`, if `is_active` stays true and `frame_counter` stays at most
`previousCounter`, and the timer reads at least `d > 0` after the first sleep and
at least `d` more after every further sleep, the loop ends through the time-out
test after `n` sleeps with `1 ≤ n ≤ ceil(timeout / d)`; it does not end before
(less fuel than `n` evaluations does not suffice), the readings after the sleeps
before the last are all below `timeout`, and the last reading is at least
`timeout`.  With `timeout ≤ 0` and the same observations the loop never ends. -/
theorem waitForNewFrame_times_out (fb : FrameBuffer) (r : Region)
    (hlive : fb.m_shmem = some r) (c : Nat) (T d : ℚ) (hT : 0 < T) (hd : 0 < d)
    (polls : Nat → Poll) (e : Nat → ℚ)
    (hp : ∀ k, (polls k).active = true ∧ (polls k).frameCounter ≤ c ∧
      (polls k).elapsed = F32.num (e k))
    (h0 : d ≤ e 0) (hstep : ∀ k, e k + d ≤ e (k + 1)) :
    (∃ n, 1 ≤ n ∧ n ≤ Nat.ceil (T / d) ∧
      (∀ fuel, n ≤ fuel →
        fb.waitForNewFrame c (F32.num T) polls fuel = some ⟨n, WaitExit.timedOut⟩) ∧
      (∀ fuel, fuel < n → fb.waitForNewFrame c (F32.num T) polls fuel = none) ∧
      (∀ j, j + 1 < n → e j < T) ∧ T ≤ e (n - 1)) ∧
    (∀ t, F32.le t (F32.num 0) = true →
      ∀ fuel, fb.waitForNewFrame c t polls fuel = none) := by
  obtain ⟨m⟩ := fb
  simp only at hlive
  subst hlive
  have hpass : ∀ k, ((polls k).active && decide ((polls k).frameCounter ≤ c)) = true :=
    fun k => (pass_iff _ _).2 ⟨(hp k).1, (hp k).2.1⟩
  have htout : ∀ k, (F32.lt (F32.num 0) (F32.num T) && F32.le (F32.num T) (polls k).elapsed)
      = true ↔ T ≤ e k := by
    intro k
    rw [(hp k).2.2]
    simp only [F32.lt, F32.le, Bool.and_eq_true, decide_eq_true_eq]
    exact ⟨fun h => h.2, fun h => ⟨hT, h⟩⟩
  -- the reading after sleep number `ceil(T/d) - 1` is at least `T`
  have hceil : T / d ≤ (Nat.ceil (T / d) : ℚ) := Nat.le_ceil _
  have hcpos : 0 < Nat.ceil (T / d) := Nat.ceil_pos.2 (div_pos hT hd)
  have hlast : T ≤ e (Nat.ceil (T / d) - 1) := by
    have h1 := elapsed_lower e d h0 hstep (Nat.ceil (T / d) - 1)
    have h2 : ((Nat.ceil (T / d) - 1 : Nat) : ℚ) + 1 = (Nat.ceil (T / d) : ℚ) := by
      have : Nat.ceil (T / d) - 1 + 1 = Nat.ceil (T / d) := by omega
      exact_mod_cast this
    rw [h2] at h1
    have h3 : T ≤ (Nat.ceil (T / d) : ℚ) * d := (div_le_iff₀ hd).1 hceil
    linarith
  have hex : ∃ k, T ≤ e k := ⟨_, hlast⟩
  have hfind := Nat.find_spec hex
  have hmin : ∀ j, j < Nat.find hex → ¬ T ≤ e j := fun j hj => Nat.find_min hex hj
  have hle : Nat.find hex ≤ Nat.ceil (T / d) - 1 := Nat.find_min' hex hlast
  refine ⟨⟨Nat.find hex + 1, by omega, by omega, fun fuel hf => ?_, fun fuel hf => ?_,
    fun j hj => ?_, hfind⟩, fun t ht fuel => ?_⟩
  · show FrameBuffer.waitLoop c (F32.num T) polls fuel 0 = _
    exact waitLoop_timedOut c (F32.num T) polls (Nat.find hex) (hpass _)
      ((htout _).2 hfind) fuel 0 (Nat.zero_le _) (by omega)
      (fun j _ hj => ⟨hpass j, fun h => hmin j hj ((htout j).1 h)⟩)
  · show FrameBuffer.waitLoop c (F32.num T) polls fuel 0 = none
    exact waitLoop_none c (F32.num T) polls fuel 0
      (fun j _ hj => ⟨hpass j, fun h => hmin j (by omega) ((htout j).1 h)⟩)
  · exact not_le.1 (hmin j (by omega))
  · show FrameBuffer.waitLoop c t polls fuel 0 = none
    apply waitLoop_none
    intro j _ _
    refine ⟨hpass j, fun h => ?_⟩
    have h1 := ((timeout_iff _ _).1 h).1
    rw [f32_lt_zero_of_le_zero ht] at h1
    exact absurd h1 (by decide)

theorem waitForNewFrame_times_out_witness :
    ((⟨some demoRegion⟩ : FrameBuffer).m_shmem = some demoRegion ∧
      (0 : ℚ) < 1 ∧ (0 : ℚ) < 1 / 2) ∧
    (∃ n, 1 ≤ n ∧ n ≤ Nat.ceil ((1 : ℚ) / (1 / 2)) ∧
      (∀ fuel, n ≤ fuel →
        (⟨some demoRegion⟩ : FrameBuffer).waitForNewFrame 0 (F32.num 1) steadyPolls fuel
          = some ⟨n, WaitExit.timedOut⟩) ∧
      (∀ fuel, fuel < n →
        (⟨some demoRegion⟩ : FrameBuffer).waitForNewFrame 0 (F32.num 1) steadyPolls fuel
          = none) ∧
      (∀ j, j + 1 < n → halfSecondValues j < 1) ∧ 1 ≤ halfSecondValues (n - 1)) ∧
    (∀ t, F32.le t (F32.num 0) = true →
      ∀ fuel, (⟨some demoRegion⟩ : FrameBuffer).waitForNewFrame 0 t steadyPolls fuel = none) :=
  have h1 : (0 : ℚ) < 1 := by norm_num
  have h2 : (0 : ℚ) < 1 / 2 := by norm_num
  have t := waitForNewFrame_times_out ⟨some demoRegion⟩ demoRegion rfl 0 1 (1 / 2) h1 h2
    steadyPolls halfSecondValues (fun _ => ⟨rfl, Nat.le_refl 0, rfl⟩)
    (by simp [halfSecondValues])
    (by intro k; simp only [halfSecondValues]; push_cast; linarith)
  ⟨⟨rfl, h1, h2⟩, t.1, t.2⟩

/-! ## Accesses stay inside the mapping -/

/-- The region after `write`, spelled out. -/
theorem write_live_eq (r : Region) (image_bits : Mem) :
    FrameBuffer.write ⟨some r⟩ image_bits =
      ⟨some ⟨r.size,
        wr64 (memcpy r.mem (Header.m_image_offset r.mem) image_bits 0
            (3 * Header.m_width r.mem * Header.m_height r.mem)) 16
          ((Header.m_frame_counter (memcpy r.mem (Header.m_image_offset r.mem) image_bits 0
            (3 * Header.m_width r.mem * Header.m_height r.mem)) + 1) % 2 ^ 64)⟩⟩ := rfl

/-- Under the bound of `open`, `write` stores nothing at or behind the mapped size. -/
theorem write_beyond (r : Region) (image_bits : Mem) (h24 : sizeofHeader ≤ r.size)
    (hb : Header.m_image_offset r.mem + Header.m_width r.mem * Header.m_height r.mem * 3
      ≤ r.size) :
    ∀ r', (FrameBuffer.write ⟨some r⟩ image_bits).m_shmem = some r' →
      r'.size = r.size ∧ ∀ a, r.size ≤ a → r'.mem a = r.mem a := by
  intro r' h
  rw [write_live_eq] at h
  simp only [Option.some.injEq] at h
  subst h
  unfold sizeofHeader at h24
  have e3 : 3 * Header.m_width r.mem * Header.m_height r.mem
      = Header.m_width r.mem * Header.m_height r.mem * 3 := by ring
  refine ⟨rfl, fun a ha => ?_⟩
  simp only []
  rw [wr64_of_out _ _ (by omega), memcpy_of_out _ _ _ _ (by omega)]

/-- Under the bound of `open`, `transferToDIB` reads nothing at or behind the mapped
size: its result is the same for any contents there. -/
theorem transferToDIB_below (r : Region) (m' : Mem) (image_bits : Mem)
    (h24 : sizeofHeader ≤ r.size)
    (hb : Header.m_image_offset r.mem + Header.m_width r.mem * Header.m_height r.mem * 3
      ≤ r.size)
    (hm : ∀ a, a < r.size → m' a = r.mem a) :
    FrameBuffer.transferToDIB ⟨some ⟨r.size, m'⟩⟩ image_bits
      = FrameBuffer.transferToDIB ⟨some r⟩ image_bits := by
  unfold sizeofHeader at h24
  have hoff : Header.m_image_offset m' = Header.m_image_offset r.mem :=
    rd32_congr (fun x h1 h2 => hm x (by omega))
  have hw : Header.m_width m' = Header.m_width r.mem :=
    rd16_congr (fun x h1 h2 => hm x (by omega))
  have hh : Header.m_height m' = Header.m_height r.mem :=
    rd16_congr (fun x h1 h2 => hm x (by omega))
  have hact : Header.m_is_active m' = Header.m_is_active r.mem := by
    unfold Header.m_is_active rd8; rw [hm 12 (by omega)]
  have hcnt : Header.m_frame_counter m' = Header.m_frame_counter r.mem :=
    rd64_congr (fun x h1 h2 => hm x (by omega))
  obtain ⟨a1, a2, a3⟩ := transferToDIB_spec r image_bits
  obtain ⟨b1, b2, b3⟩ := transferToDIB_spec ⟨r.size, m'⟩ image_bits
  simp only [hoff, hw, hh, hact, hcnt] at b1 b2 b3
  apply Prod.ext
  · funext x
    by_cases hx : ∃ y, y < Header.m_height r.mem ∧ ∃ i, i < 3 * Header.m_width r.mem ∧
        x = y * (3 * Header.m_width r.mem + FrameBuffer.gap (Header.m_width r.mem)) + i
    · obtain ⟨y, hy, i, hi, rfl⟩ := hx
      have hlt := src_index_lt (w := Header.m_width r.mem) hy hi
      have hsrc : m' (Header.m_image_offset r.mem +
            3 * Header.m_width r.mem * (Header.m_height r.mem - 1 - y) + i)
          = r.mem (Header.m_image_offset r.mem +
            3 * Header.m_width r.mem * (Header.m_height r.mem - 1 - y) + i) :=
        hm _ (by omega)
      rw [b1 y hy i hi, a1 y hy i hi]
      unfold rd8
      rw [hsrc]
    · have hx' : ∀ y, y < Header.m_height r.mem → ∀ i, i < 3 * Header.m_width r.mem →
          x ≠ y * (3 * Header.m_width r.mem + FrameBuffer.gap (Header.m_width r.mem)) + i :=
        fun y hy i hi he => hx ⟨y, hy, i, hi, he⟩
      rw [b2 x hx', a2 x hx']
  · rw [b3, a3]

/-- The mapped size of a region accepted by `open` is at least the header size. -/
theorem open_live_size {existing : Option Region} {r : Region}
    (h : (FrameBuffer.open existing).1.m_shmem = some r) : sizeofHeader ≤ r.size := by
  obtain ⟨r0, -, -, f1, -, -, -, -, -, -, -, -, -, hc, -⟩ := (open_spec existing).1 r h
  rw [f1]
  exact hc.1

/-- C16: in-bounds access.  For every channel made live by `create` or by `open`, at
that moment, and for a region initialised by `create` after any sequence of calls
(`open`, `write`, `deactivate`, `transferToDIB`, queries, `waitForNewFrame`,
`release`): `image_offset + width*height*3 ≤` mapped size; every region index used
by `write` (`image_offset + k`, `k < 3*width*height`) and by `transferToDIB`
(`image_offset + 3*width*(height-1-y) + i`, `y < height`, `i < 3*width`) is below
the mapped size; `write` changes no byte at or behind the mapped size; and the
result of `transferToDIB` does not depend on any byte at or behind it. -/
theorem accesses_in_bounds (existing : Option Region) (alloc : Nat → Option Region)
    (width height : Int) (framerate : Nat) (r : Region)
    (hlive : (FrameBuffer.create existing alloc width height framerate).1.m_shmem = some r ∨
      (FrameBuffer.open existing).1.m_shmem = some r ∨
      ∃ r0 ops, (FrameBuffer.create existing alloc width height framerate).1.m_shmem
          = some r0 ∧ ((Sys.init r0).run ops).shared = r) :
    sizeofHeader ≤ r.size ∧
    Header.m_image_offset r.mem + Header.m_width r.mem * Header.m_height r.mem * 3
      ≤ r.size ∧
    (∀ k, k < 3 * Header.m_width r.mem * Header.m_height r.mem →
      Header.imageData r.mem + k < r.size) ∧
    (∀ y, y < Header.m_height r.mem → ∀ i, i < 3 * Header.m_width r.mem →
      Header.imageData r.mem + 3 * Header.m_width r.mem * (Header.m_height r.mem - 1 - y) + i
        < r.size) ∧
    (∀ image_bits r', (FrameBuffer.write ⟨some r⟩ image_bits).m_shmem = some r' →
      r'.size = r.size ∧ ∀ a, r.size ≤ a → r'.mem a = r.mem a) ∧
    (∀ (m' : Mem) (image_bits : Mem), (∀ a, a < r.size → m' a = r.mem a) →
      FrameBuffer.transferToDIB ⟨some ⟨r.size, m'⟩⟩ image_bits
        = FrameBuffer.transferToDIB ⟨some r⟩ image_bits) := by
  have hcreate : ∀ r1, (FrameBuffer.create existing alloc width height framerate).1.m_shmem
      = some r1 → sizeofHeader ≤ r1.size ∧
        Header.m_image_offset r1.mem + Header.m_width r1.mem * Header.m_height r1.mem * 3
          ≤ r1.size := by
    intro r1 h
    obtain ⟨hoff, -, -, -⟩ := created_region h
    have hb := (create_live_bound h).2
    exact ⟨by rw [hoff] at hb; omega, hb⟩
  have hbound : sizeofHeader ≤ r.size ∧
      Header.m_image_offset r.mem + Header.m_width r.mem * Header.m_height r.mem * 3
        ≤ r.size := by
    rcases hlive with h | h | ⟨r0, ops, h, rfl⟩
    · exact hcreate r h
    · exact ⟨open_live_size h, (open_live_bound h).2⟩
    · obtain ⟨hoff, -, -, -⟩ := created_region h
      obtain ⟨g1, g2, g3, g4, -⟩ := run_header (Sys.init r0) ops hoff
      obtain ⟨c1, c2⟩ := hcreate r0 h
      rw [g1, g2, g3, g4]
      refine ⟨c1, ?_⟩
      show sizeofHeader + Header.m_width r0.mem * Header.m_height r0.mem * 3 ≤ r0.size
      rw [← hoff]
      exact c2
  obtain ⟨h24, hb⟩ := hbound
  refine ⟨h24, hb, fun k hk => ?_, fun y hy i hi => ?_,
    fun image_bits => write_beyond r image_bits h24 hb,
    fun m' image_bits hm => transferToDIB_below r m' image_bits h24 hb hm⟩
  · have e3 : 3 * Header.m_width r.mem * Header.m_height r.mem
        = Header.m_width r.mem * Header.m_height r.mem * 3 := by ring
    unfold Header.imageData
    omega
  · have hlt := src_index_lt (w := Header.m_width r.mem) hy hi
    unfold Header.imageData
    omega

theorem accesses_in_bounds_witness :
    ((FrameBuffer.create none allocZero 4 4 0).1.m_shmem = some demoRegion ∨
      (FrameBuffer.open none).1.m_shmem = some demoRegion ∨
      ∃ r0 ops, (FrameBuffer.create none allocZero 4 4 0).1.m_shmem = some r0 ∧
        ((Sys.init r0).run ops).shared = demoRegion) ∧
    (sizeofHeader ≤ demoRegion.size ∧
    Header.m_image_offset demoRegion.mem
      + Header.m_width demoRegion.mem * Header.m_height demoRegion.mem * 3
      ≤ demoRegion.size ∧
    (∀ k, k < 3 * Header.m_width demoRegion.mem * Header.m_height demoRegion.mem →
      Header.imageData demoRegion.mem + k < demoRegion.size) ∧
    (∀ y, y < Header.m_height demoRegion.mem → ∀ i, i < 3 * Header.m_width demoRegion.mem →
      Header.imageData demoRegion.mem
        + 3 * Header.m_width demoRegion.mem * (Header.m_height demoRegion.mem - 1 - y) + i
        < demoRegion.size) ∧
    (∀ image_bits r', (FrameBuffer.write ⟨some demoRegion⟩ image_bits).m_shmem = some r' →
      r'.size = demoRegion.size ∧ ∀ a, demoRegion.size ≤ a → r'.mem a = demoRegion.mem a) ∧
    (∀ (m' : Mem) (image_bits : Mem), (∀ a, a < demoRegion.size → m' a = demoRegion.mem a) →
      FrameBuffer.transferToDIB ⟨some ⟨demoRegion.size, m'⟩⟩ image_bits
        = FrameBuffer.transferToDIB ⟨some demoRegion⟩ image_bits)) ∧
    ((FrameBuffer.open (some foreignRegion)).1.m_shmem = some foreignOpened ∧
      Header.m_image_offset foreignOpened.mem
        + Header.m_width foreignOpened.mem * Header.m_height foreignOpened.mem * 3
        ≤ foreignOpened.size) ∧
    ((Sys.init demoRegion).run demoOps).shared.size = 72 ∧
    Header.m_image_offset ((Sys.init demoRegion).run demoOps).shared.mem +
      Header.m_width ((Sys.init demoRegion).run demoOps).shared.mem *
        Header.m_height ((Sys.init demoRegion).run demoOps).shared.mem * 3
      ≤ ((Sys.init demoRegion).run demoOps).shared.size :=
  ⟨Or.inl rfl, accesses_in_bounds none allocZero 4 4 0 demoRegion (Or.inl rfl),
    ⟨rfl, (accesses_in_bounds (some foreignRegion) allocZero 4 4 0 foreignOpened
      (Or.inr (Or.inl rfl))).2.1⟩,
    rfl,
    (accesses_in_bounds none allocZero 4 4 0 ((Sys.init demoRegion).run demoOps).shared
      (Or.inr (Or.inr ⟨demoRegion, demoOps, rfl, rfl⟩))).2.1⟩

end softcam
